import Mathlib

/-!
Verification development for the Hookd interaction-capture server.

The Go sources are shallowly embedded: Go maps become association lists,
`time.Time` becomes `Int` (seconds), machine strings become Lean `String`
(with list-of-char implementations of the `strings` library functions used
by the code), and runtime inputs (clock readings, generated ids, heap
measurements, JSON decoding) are passed as explicit parameters.
-/

set_option maxHeartbeats 1000000

/-! ## Models of the Go `strings` library functions used by the sources -/

/-- Model of `strings.Split` restricted to a one-character separator
(the sources only split on ".", "/" and ":").  `strings.Split("", sep)`
returns a single empty field, matching Go. -/
def splitCharList (c : Char) : List Char → List (List Char)
  | [] => [[]]
  | x :: xs =>
    match splitCharList c xs with
    | [] => [[]]
    | h :: t => if x = c then [] :: h :: t else (x :: h) :: t

/-- `strings.Split(s, c)` for a one-character separator. -/
def goSplit (c : Char) (s : String) : List String :=
  (splitCharList c s.data).map String.mk

/-- Model of `strings.HasSuffix`. -/
def goHasSfx (s suf : String) : Bool :=
  suf.data.isSuffixOf s.data

/-- Model of `strings.TrimSuffix`: removes one trailing occurrence of the
suffix, if present. -/
def goTrimSfx (s suf : String) : String :=
  if goHasSfx s suf then String.mk (s.data.take (s.data.length - suf.data.length)) else s

/-- Model of `strings.ToLower` (character-wise lowering). -/
def goToLower (s : String) : String :=
  String.mk (s.data.map Char.toLower)

/-- Model of `strings.HasPrefix`. -/
def goHasPfx (pre s : String) : Bool :=
  pre.data.isPrefixOf s.data

/-- Model of `strings.Trim(s, "/")`: removes leading and trailing slashes. -/
def trimSlash (s : String) : String :=
  String.mk (((s.data.dropWhile (· = '/')).reverse.dropWhile (· = '/')).reverse)

/-- Joins character lists with a separator character; used to model taking
the part of a string before its last separator (`strings.LastIndex`). -/
def joinChar (c : Char) : List (List Char) → List Char
  | [] => []
  | [l] => l
  | l :: ls => l ++ c :: joinChar c ls

/-- Model of `host[:strings.Index(host, ":")]` (with the whole string when
there is no colon): everything before the first colon. -/
def cutColon (s : String) : String :=
  String.mk (s.data.takeWhile (· ≠ ':'))

/-- Model of `remoteAddr[:strings.LastIndex(remoteAddr, ":")]` (with the
whole string when there is no colon), as in the HTTP `extractIP`. -/
def httpExtractIP (addr : String) : String :=
  match splitCharList ':' addr.data with
  | [] => addr
  | [_] => addr
  | segs => String.mk (joinChar ':' segs.dropLast)

/-- Model of the DNS `extractIP`, which uses `net.SplitHostPort` and falls
back to the raw address on error.  Modelled for well-formed `host:port`
inputs (including a bracketed IPv6 host); inputs with no colon are
returned unchanged, as in Go. -/
def dnsExtractIP (addr : String) : String :=
  match splitCharList ':' addr.data with
  | [] => addr
  | [_] => addr
  | segs =>
    let host := joinChar ':' segs.dropLast
    if host.head? = some '[' ∧ host.getLast? = some ']' then
      String.mk ((host.drop 1).dropLast)
    else
      String.mk host

/-! ## Association lists: the model of Go maps -/

/-- First-match lookup in an association list (Go map read). -/
def alistGet {α : Type} (k : String) : List (String × α) → Option α
  | [] => none
  | p :: ps => if p.1 = k then some p.2 else alistGet k ps

/-- Go map write `m[k] = v`: replaces the binding if the key is present,
otherwise adds a new binding. -/
def alistSet {α : Type} (k : String) (v : α) : List (String × α) → List (String × α)
  | [] => [(k, v)]
  | p :: ps => if p.1 = k then (k, v) :: ps else p :: alistSet k v ps

/-- Go map delete `delete(m, k)`. -/
def alistErase {α : Type} (k : String) : List (String × α) → List (String × α)
  | [] => []
  | p :: ps => if p.1 = k then alistErase k ps else p :: alistErase k ps

/-- The keys of an association list. -/
def alistKeys {α : Type} (l : List (String × α)) : List String :=
  l.map (·.1)

theorem alistGet_set_self {α : Type} (k : String) (v : α) (l : List (String × α)) :
    alistGet k (alistSet k v l) = some v := by
  induction l with
  | nil => simp [alistGet, alistSet]
  | cons p ps ih =>
    by_cases h : p.1 = k
    · simp [alistGet, alistSet, h]
    · simp [alistGet, alistSet, h, ih]

theorem alistGet_set_ne {α : Type} (k k' : String) (v : α) (l : List (String × α))
    (h : k' ≠ k) : alistGet k' (alistSet k v l) = alistGet k' l := by
  induction l with
  | nil => simp [alistGet, alistSet, Ne.symm h]
  | cons p ps ih =>
    by_cases hp : p.1 = k
    · simp [alistGet, alistSet, hp, Ne.symm h]
    · by_cases hp' : p.1 = k'
      · simp [alistGet, alistSet, hp, hp', h]
      · simp [alistGet, alistSet, hp, hp', ih]

theorem alistGet_erase {α : Type} (k k' : String) (l : List (String × α)) (h : k' ≠ k) :
    alistGet k' (alistErase k l) = alistGet k' l := by
  induction l with
  | nil => rfl
  | cons p ps ih =>
    by_cases hp : p.1 = k
    · have hp' : p.1 ≠ k' := by rw [hp]; exact Ne.symm h
      simp only [alistErase, if_pos hp, ih, alistGet, if_neg hp']
    · simp only [alistErase, if_neg hp, alistGet]
      by_cases hp' : p.1 = k'
      · simp only [if_pos hp']
      · simp only [if_neg hp', ih]

theorem alistGet_erase_self {α : Type} (k : String) (l : List (String × α)) :
    alistGet k (alistErase k l) = none := by
  induction l with
  | nil => rfl
  | cons p ps ih =>
    by_cases hp : p.1 = k
    · simpa only [alistErase, if_pos hp] using ih
    · simp only [alistErase, if_neg hp, alistGet, if_neg hp]
      exact ih

theorem mem_of_mem_alistErase {α : Type} {k : String} {p : String × α}
    {l : List (String × α)} (h : p ∈ alistErase k l) : p ∈ l := by
  induction l with
  | nil => simp [alistErase] at h
  | cons q qs ih =>
    by_cases hq : q.1 = k
    · rw [alistErase, if_pos hq] at h
      exact List.mem_cons_of_mem _ (ih h)
    · rw [alistErase, if_neg hq] at h
      rcases List.mem_cons.mp h with rfl | h'
      · exact List.mem_cons_self _ _
      · exact List.mem_cons_of_mem _ (ih h')

theorem alistGet_mem {α : Type} {k : String} {v : α} {l : List (String × α)}
    (h : alistGet k l = some v) : (k, v) ∈ l := by
  induction l with
  | nil => simp [alistGet] at h
  | cons p ps ih =>
    by_cases hp : p.1 = k
    · rw [alistGet, if_pos hp] at h
      injection h with h
      subst h
      exact List.mem_cons.mpr (Or.inl (by rw [← hp]))
    · rw [alistGet, if_neg hp] at h
      exact List.mem_cons_of_mem _ (ih h)

theorem alistGet_isSome_of_key_mem {α : Type} {k : String} {l : List (String × α)}
    (h : k ∈ alistKeys l) : (alistGet k l).isSome := by
  induction l with
  | nil => simp [alistKeys] at h
  | cons p ps ih =>
    by_cases hp : p.1 = k
    · simp [alistGet, hp]
    · rw [alistGet, if_neg hp]
      apply ih
      rcases List.mem_map.mp h with ⟨q, hq, hqk⟩
      rcases List.mem_cons.mp hq with rfl | hq'
      · exact absurd hqk hp
      · exact List.mem_map.mpr ⟨q, hq', hqk⟩

theorem alistKeys_set_of_mem {α : Type} (k : String) (v : α) (l : List (String × α))
    (h : k ∈ alistKeys l) : alistKeys (alistSet k v l) = alistKeys l := by
  induction l with
  | nil => simp [alistKeys] at h
  | cons p ps ih =>
    by_cases hp : p.1 = k
    · simp [alistSet, hp, alistKeys]
    · rw [alistSet, if_neg hp]
      have hk : k ∈ alistKeys ps := by
        rcases List.mem_map.mp h with ⟨q, hq, hqk⟩
        rcases List.mem_cons.mp hq with rfl | hq'
        · exact absurd hqk hp
        · exact List.mem_map.mpr ⟨q, hq', hqk⟩
      have := ih hk
      simp only [alistKeys, List.map_cons] at this ⊢
      rw [this]

theorem alistKeys_erase_sublist {α : Type} (k : String) (l : List (String × α)) :
    (alistKeys (alistErase k l)).Sublist (alistKeys l) := by
  induction l with
  | nil => simp [alistErase, alistKeys]
  | cons p ps ih =>
    by_cases hp : p.1 = k
    · rw [alistErase, if_pos hp]
      simp only [alistKeys, List.map_cons]
      exact ih.trans (List.sublist_cons_self _ _)
    · rw [alistErase, if_neg hp]
      simp only [alistKeys, List.map_cons]
      exact ih.cons₂ _

theorem alistGet_of_mem_nodup {α : Type} {k : String} {v : α} {l : List (String × α)}
    (hmem : (k, v) ∈ l) (hnd : (alistKeys l).Nodup) : alistGet k l = some v := by
  induction l with
  | nil => simp at hmem
  | cons p ps ih =>
    have hnd' := List.nodup_cons.mp (by simpa only [alistKeys, List.map_cons] using hnd)
    rcases List.mem_cons.mp hmem with h | h
    · rw [← h]
      simp [alistGet]
    · have hk : k ∈ alistKeys ps := List.mem_map.mpr ⟨(k, v), h, rfl⟩
      have hp : p.1 ≠ k := fun hh => hnd'.1 (hh ▸ hk)
      rw [alistGet, if_neg hp]
      exact ih h hnd'.2

/-! ## Storage data model (`internal/storage/types.go`) -/

/-- A registered hook (`storage.Hook`); `created_at` is a UTC instant
modelled as an integer. -/
structure Hook where
  id : String
  dns : String
  http : String
  https : String
  createdAt : Int
deriving DecidableEq, Repr

/-- `storage.InteractionType`. -/
inductive InteractionType
  | dns
  | http
deriving DecidableEq, Repr

/-- The type-tagged `data` payload of an interaction.  The Go code stores a
`map[string]interface{}`, but the only two shapes ever constructed are the
ones produced by `DNSInteraction` and `HTTPInteraction`. -/
inductive InteractionData
  | dnsData (qname qtype : String)
  | httpData (method path : String) (headers : List (String × String)) (body : String)
deriving DecidableEq, Repr

/-- `storage.Interaction`. -/
structure Interaction where
  id : String
  itype : InteractionType
  timestamp : Int
  sourceIP : String
  data : InteractionData
deriving DecidableEq, Repr

/-- `storage.DNSInteraction` constructor; the clock reading is a parameter. -/
def DNSInteraction (id sourceIP qname qtype : String) (now : Int) : Interaction :=
  { id := id, itype := .dns, timestamp := now, sourceIP := sourceIP
    data := .dnsData qname qtype }

/-- `storage.HTTPInteraction` constructor; the clock reading is a parameter. -/
def HTTPInteraction (id sourceIP method path : String) (headers : List (String × String))
    (body : String) (now : Int) : Interaction :=
  { id := id, itype := .http, timestamp := now, sourceIP := sourceIP
    data := .httpData method path headers body }

/-! ## In-memory storage manager (`storage.MemoryManager`) -/

/-- `storage.MemoryManager`: the two Go maps become association lists. -/
structure MemoryManager where
  hooks : List (String × Hook)
  interactions : List (String × List Interaction)
deriving DecidableEq, Repr

/-- `storage.NewMemoryManager`: empty maps. -/
def NewMemoryManager : MemoryManager := { hooks := [], interactions := [] }

/-- `MemoryManager.CreateHook`; the generated id and the clock reading are
parameters (`m.idGenerator()` and `time.Now().UTC()`). -/
def CreateHook (m : MemoryManager) (id domain : String) (now : Int) :
    MemoryManager × Hook :=
  let hook : Hook :=
    { id := id
      dns := id ++ "." ++ domain
      http := "http://" ++ id ++ "." ++ domain
      https := "https://" ++ id ++ "." ++ domain
      createdAt := now }
  ({ hooks := alistSet id hook m.hooks
     interactions := alistSet id [] m.interactions }, hook)

/-- `MemoryManager.GetHook`. -/
def GetHook (m : MemoryManager) (id : String) : Option Hook :=
  alistGet id m.hooks

/-- `MemoryManager.AddInteraction`: silently ignores interactions for
non-existent hooks (the Go method always returns a nil error). -/
def AddInteraction (m : MemoryManager) (hookID : String) (i : Interaction) :
    MemoryManager :=
  match alistGet hookID m.hooks with
  | none => m
  | some _ =>
    { m with interactions :=
        alistSet hookID (((alistGet hookID m.interactions).getD []) ++ [i]) m.interactions }

/-- `MemoryManager.PollInteractions`: returns the current list and clears
it; returns the empty list for an absent key (the Go error is always nil). -/
def PollInteractions (m : MemoryManager) (hookID : String) :
    List Interaction × MemoryManager :=
  match alistGet hookID m.interactions with
  | none => ([], m)
  | some l => (l, { m with interactions := alistSet hookID [] m.interactions })

/-- `MemoryManager.GetAllHooks` (snapshot of the map values). -/
def GetAllHooks (m : MemoryManager) : List Hook :=
  m.hooks.map (·.2)

/-- `MemoryManager.GetAllInteractions` (shallow snapshot). -/
def GetAllInteractions (m : MemoryManager) : List (String × List Interaction) :=
  m.interactions

/-- `MemoryManager.DeleteInteractions`: removes the interactions whose id is
in the given list, preserving the order of the survivors. -/
def DeleteInteractions (m : MemoryManager) (hookID : String) (ids : List String) :
    MemoryManager :=
  match alistGet hookID m.interactions with
  | none => m
  | some l =>
    { m with interactions :=
        alistSet hookID (l.filter (fun i => ! ids.contains i.id)) m.interactions }

/-- `MemoryManager.DeleteHook`: removes the hook and all its interactions. -/
def DeleteHook (m : MemoryManager) (hookID : String) : MemoryManager :=
  { hooks := alistErase hookID m.hooks
    interactions := alistErase hookID m.interactions }

/-- `storage.Stats` (without the runtime memory block, which is read from
the Go runtime and passed separately where needed). -/
structure Stats where
  hooksActive : Nat
  interactionsTotal : Nat
  interactionsDNS : Nat
  interactionsHTTP : Nat
deriving DecidableEq, Repr

/-- `MemoryManager.Stats` (counting part). -/
def StatsOf (m : MemoryManager) : Stats :=
  { hooksActive := m.hooks.length
    interactionsTotal := (m.interactions.map (fun p => p.2.length)).sum
    interactionsDNS :=
      (m.interactions.map (fun p => (p.2.filter (fun i => i.itype = .dns)).length)).sum
    interactionsHTTP :=
      (m.interactions.map (fun p => (p.2.filter (fun i => i.itype = .http)).length)).sum }

/-- Well-formedness of a manager state, maintained by every operation:
map keys are unique, each hook is stored under its own id, and every
interaction list belongs to an existing hook. -/
def WF (m : MemoryManager) : Prop :=
  (alistKeys m.hooks).Nodup ∧ (alistKeys m.interactions).Nodup ∧
  (∀ p ∈ m.hooks, p.2.id = p.1) ∧
  (∀ p ∈ m.interactions, (alistGet p.1 m.hooks).isSome)

instance (m : MemoryManager) : Decidable (WF m) := by
  unfold WF
  infer_instance

/-! ## C1: add a batch of interactions, then poll -/

/-- A sequence of `AddInteraction` calls for one hook, in order. -/
def addAll (m : MemoryManager) (hookID : String) (is : List Interaction) : MemoryManager :=
  is.foldl (fun acc i => AddInteraction acc hookID i) m

theorem addAll_spec (m : MemoryManager) (hookID : String) (hk : Hook)
    (l : List Interaction) (is : List Interaction)
    (hh : alistGet hookID m.hooks = some hk)
    (hi : alistGet hookID m.interactions = some l) :
    (addAll m hookID is).hooks = m.hooks ∧
    alistGet hookID (addAll m hookID is).interactions = some (l ++ is) := by
  induction is generalizing m l with
  | nil => exact ⟨rfl, by simpa using hi⟩
  | cons i rest ih =>
    have hstep : AddInteraction m hookID i =
        { m with interactions := alistSet hookID (l ++ [i]) m.interactions } := by
      simp [AddInteraction, hh, hi]
    have hh' : alistGet hookID (AddInteraction m hookID i).hooks = some hk := by
      rw [hstep]; exact hh
    have hi' : alistGet hookID (AddInteraction m hookID i).interactions = some (l ++ [i]) := by
      rw [hstep]; exact alistGet_set_self _ _ _
    have := ih (AddInteraction m hookID i) (l ++ [i]) hh' hi'
    refine ⟨?_, ?_⟩
    · rw [show addAll m hookID (i :: rest) = addAll (AddInteraction m hookID i) hookID rest
        from rfl, this.1, hstep]
    · rw [show addAll m hookID (i :: rest) = addAll (AddInteraction m hookID i) hookID rest
        from rfl, this.2]
      simp

/-- C1: for a registered hook `h` whose pending list is empty, adding the
interactions `is` with no intervening poll and then polling once returns
exactly `is` in insertion order; a second poll returns the empty list, and
the hook itself still exists afterwards. -/
theorem C1_add_then_poll (m : MemoryManager) (hk : Hook) (h : String)
    (is : List Interaction)
    (hreg : GetHook m h = some hk)
    (hempty : alistGet h m.interactions = some []) :
    (PollInteractions (addAll m h is) h).1 = is ∧
    (PollInteractions (PollInteractions (addAll m h is) h).2 h).1 = [] ∧
    GetHook (PollInteractions (PollInteractions (addAll m h is) h).2 h).2 h = some hk := by
  have hspec := addAll_spec m h hk [] is hreg hempty
  have hpoll : ∀ (mm : MemoryManager) (l : List Interaction),
      alistGet h mm.interactions = some l →
      PollInteractions mm h = (l, { mm with interactions := alistSet h [] mm.interactions }) :=
    fun mm l hl => by simp [PollInteractions, hl]
  have hi1 : alistGet h (addAll m h is).interactions = some is := by
    simpa using hspec.2
  have hpoll1 := hpoll _ _ hi1
  have hi2 : alistGet h (PollInteractions (addAll m h is) h).2.interactions = some [] := by
    rw [hpoll1]
    exact alistGet_set_self _ _ _
  have hpoll2 := hpoll _ _ hi2
  refine ⟨by rw [hpoll1], by rw [hpoll2], ?_⟩
  rw [hpoll2]
  show alistGet h (PollInteractions (addAll m h is) h).2.hooks = some hk
  rw [hpoll1]
  show alistGet h (addAll m h is).hooks = some hk
  rw [hspec.1]
  exact hreg

/-- Concrete manager with one registered hook `abc123`, used by witnesses. -/
def mgrW : MemoryManager := (CreateHook NewMemoryManager "abc123" "example.com" 0).1

/-- The hook object registered in `mgrW`. -/
def hkW : Hook := (CreateHook NewMemoryManager "abc123" "example.com" 0).2

/-- A sample DNS interaction. -/
def iW1 : Interaction := DNSInteraction "i1" "1.2.3.4" "abc123.example.com" "A" 5

/-- A sample HTTP interaction. -/
def iW2 : Interaction := HTTPInteraction "i2" "5.6.7.8" "POST" "/callback" [] "body" 6

theorem C1_add_then_poll_witness :
    GetHook mgrW "abc123" = some hkW ∧
    ((PollInteractions (addAll mgrW "abc123" [iW1, iW2]) "abc123").1 = [iW1, iW2] ∧
     (PollInteractions (PollInteractions (addAll mgrW "abc123" [iW1, iW2]) "abc123").2
        "abc123").1 = [] ∧
     GetHook (PollInteractions (PollInteractions (addAll mgrW "abc123" [iW1, iW2]) "abc123").2
        "abc123").2 "abc123" = some hkW) :=
  ⟨by decide, C1_add_then_poll mgrW hkW "abc123" [iW1, iW2] (by decide) (by decide)⟩

/-! ## C6: operations on a hook that was never registered -/

/-- C6: for a well-formed store and a hook id that is not registered,
polling returns the empty list and leaves the store unchanged,
`AddInteraction` is a no-op that never creates the hook, and `GetHook`
returns none. -/
theorem C6_unregistered (m : MemoryManager) (h : String) (i : Interaction)
    (hwf : WF m) (hnone : GetHook m h = none) :
    PollInteractions m h = ([], m) ∧ AddInteraction m h i = m ∧ GetHook m h = none := by
  have hhooks : alistGet h m.hooks = none := hnone
  have hint : alistGet h m.interactions = none := by
    cases hgi : alistGet h m.interactions with
    | none => rfl
    | some l =>
      have hmem := alistGet_mem hgi
      have hsome := hwf.2.2.2 _ hmem
      rw [show ((h, l).1 : String) = h from rfl, hhooks] at hsome
      simp at hsome
  refine ⟨?_, ?_, hnone⟩
  · simp [PollInteractions, hint]
  · simp [AddInteraction, hhooks]

theorem C6_unregistered_witness :
    (WF mgrW ∧ GetHook mgrW "nope" = none) ∧
    (PollInteractions mgrW "nope" = ([], mgrW) ∧
     AddInteraction mgrW "nope" iW1 = mgrW ∧ GetHook mgrW "nope" = none) :=
  ⟨⟨by decide, by decide⟩, C6_unregistered mgrW "nope" iW1 (by decide) (by decide)⟩

/-! ## ACME record store (`internal/acme/provider.go`) -/

/-- `libdns.Record` restricted to the four fields that Hookd stores and
compares (`rec.RR()`): type, name, data, TTL (seconds). -/
structure RR where
  rtype : String
  rname : String
  rdata : String
  rttl : Int
deriving DecidableEq, Repr

instance : Inhabited RR := ⟨⟨"", "", "", 0⟩⟩

/-- `acme.compareRecords`: value equality on all four fields. -/
def compareRecords (a b : RR) : Bool :=
  a.rtype == b.rtype && a.rname == b.rname && a.rdata == b.rdata && a.rttl == b.rttl

theorem compareRecords_iff (a b : RR) : compareRecords a b = true ↔ a = b := by
  cases a
  cases b
  simp [compareRecords, RR.mk.injEq, and_assoc]

/-- The in-place mutation `r.entries = append(r.entries[:i], r.entries[i+1:]...)`
performed while the enclosing `range` loop still reads the original backing
array: the array keeps its length, elements `i+1 .. n-1` shift left one
position, and positions from `n-1` on keep their old values (`n` is the
current logical length of the slice before the deletion). -/
def shiftDelete (arr : List RR) (i n : Nat) : List RR :=
  arr.take i ++ ((arr.take n).drop (i + 1)) ++ arr.drop (n - 1)

/-- The inner `for _, record := range recs` loop of one outer iteration of
`RecordStore.deleteRecords`: `entry` was read once from the live backing
array; each matching record performs the in-place deletion at index `i` of
the current slice (logical length `n`); `none` models the slice-bounds
panic that the `append` raises when a match fires with `i ≥ n`. -/
def delInner (entry : RR) (arr : List RR) (n i : Nat) (deleted : List RR) :
    List RR → Option (List RR × Nat × List RR)
  | [] => some (arr, n, deleted)
  | r :: rest =>
    if compareRecords entry r then
      if i < n then delInner entry (shiftDelete arr i n) (n - 1) i (deleted ++ [r]) rest
      else none
    else delInner entry arr n i deleted rest

/-- The outer `for i, entry := range r.entries` loop of
`RecordStore.deleteRecords`; the range expression is evaluated once, so the
loop runs once per index of the original length (`fuel` counts the
remaining iterations, `i` is the current index) while reading the mutated
backing array. -/
def delLoop (recs : List RR) : Nat → List RR → Nat → Nat → List RR →
    Option (List RR × Nat × List RR)
  | 0, arr, n, _, deleted => some (arr, n, deleted)
  | fuel + 1, arr, n, i, deleted =>
    match delInner (arr.getD i default) arr n i deleted recs with
    | none => none
    | some (arr', n', deleted') => delLoop recs fuel arr' n' (i + 1) deleted'

/-- `RecordStore.deleteRecords`: `none` models a runtime panic; otherwise
the surviving entries (the final slice) and the returned deleted records. -/
def deleteRecords (entries recs : List RR) : Option (List RR × List RR) :=
  (delLoop recs entries.length entries entries.length 0 []).map
    (fun r => (r.1.take r.2.1, r.2.2))

/-- The ACME provider state: `Provider.recordMap`, zone name to stored
records. -/
abbrev ProviderState := List (String × List RR)

/-- `Provider.DeleteRecords`: looks up the zone's record store (returning
`nil, nil` when the zone is unknown) and runs `deleteRecords` on it. -/
def DeleteRecords (p : ProviderState) (zone : String) (recs : List RR) :
    Option (ProviderState × List RR) :=
  match alistGet zone p with
  | none => some (p, [])
  | some entries =>
    (deleteRecords entries recs).map (fun r => (alistSet zone r.1 p, r.2))

/-- `Provider.AppendRecords`: appends the records to the zone's list
(creating the zone's store when absent). -/
def AppendRecords (p : ProviderState) (zone : String) (recs : List RR) : ProviderState :=
  match alistGet zone p with
  | none => alistSet zone recs p
  | some entries => alistSet zone (entries ++ recs) p

/-- `Provider.GetRecords`. -/
def GetRecords (p : ProviderState) (zone : String) : List RR :=
  (alistGet zone p).getD []

/-- `Provider.SetRecords`: replaces the zone's records. -/
def SetRecords (p : ProviderState) (zone : String) (recs : List RR) : ProviderState :=
  alistSet zone recs p

/-- The deletion behaviour the specification describes for the ACME store:
remove every stored entry that is value-equal (on all four fields) to some
record of the given list, keeping the order of the survivors. -/
def specDeleteRecords (entries recs : List RR) : List RR :=
  entries.filter (fun e => ! recs.any (fun r => compareRecords e r))

/-- The records of the given list that are value-equal to some stored
entry: what the specification says the delete operation returns. -/
def specMatchedRecords (entries recs : List RR) : List RR :=
  recs.filter (fun r => entries.any (fun e => compareRecords e r))

/-- The number of (stored entry, given record) pairs that are value-equal. -/
def matchCount (entries recs : List RR) : Nat :=
  (entries.map (fun e => (recs.filter (fun r => compareRecords e r)).length)).sum

/-- First counterexample record. -/
def rrA : RR := ⟨"TXT", "_acme-challenge", "value1", 300⟩

/-- Second counterexample record. -/
def rrB : RR := ⟨"TXT", "_acme-challenge", "value2", 300⟩

/-- C9 counterexample: deleting `rrA` from the zone list `[rrA, rrA, rrB]`
leaves `[rrA, rrB]` — the in-place loop skips the duplicate that shifted
into the deleted slot — while the claimed behaviour (remove every
value-equal entry) would leave `[rrB]`. -/
theorem C9_delete_counterexample :
    DeleteRecords [("example.com.", [rrA, rrA, rrB])] "example.com." [rrA] =
      some ([("example.com.", [rrA, rrB])], [rrA]) ∧
    specDeleteRecords [rrA, rrA, rrB] [rrA] = [rrB] ∧
    ([rrA, rrB] : List RR) ≠ [rrB] := by
  refine ⟨by decide, by decide, by decide⟩

theorem delInner_nomatch (entry : RR) (arr : List RR) (n i : Nat) (d : List RR)
    (recs : List RR) (h : ∀ r ∈ recs, compareRecords entry r = false) :
    delInner entry arr n i d recs = some (arr, n, d) := by
  induction recs with
  | nil => rfl
  | cons r rest ih =>
    simp only [delInner, h r (List.mem_cons_self _ _), Bool.false_eq_true, if_false]
    exact ih (fun r' hr => h r' (List.mem_cons_of_mem _ hr))

theorem delInner_single (entry : RR) (arr : List RR) (n i : Nat) (d : List RR)
    (r1 r2 : List RR) (r0 : RR)
    (h1 : ∀ r ∈ r1, compareRecords entry r = false)
    (h2 : ∀ r ∈ r2, compareRecords entry r = false)
    (h0 : compareRecords entry r0 = true)
    (hin : i < n) :
    delInner entry arr n i d (r1 ++ r0 :: r2) =
      some (shiftDelete arr i n, n - 1, d ++ [r0]) := by
  induction r1 with
  | nil =>
    simp only [List.nil_append, delInner, h0, if_true, hin, if_pos]
    exact delInner_nomatch _ _ _ _ _ _ h2
  | cons r rs ih =>
    simp only [List.cons_append, delInner, h1 r (List.mem_cons_self _ _),
      Bool.false_eq_true, if_false]
    exact ih (fun r' hr => h1 r' (List.mem_cons_of_mem _ hr))

theorem delLoop_add (recs : List RR) (f1 f2 : Nat) (arr : List RR) (n i : Nat)
    (d : List RR) :
    delLoop recs (f1 + f2) arr n i d =
      match delLoop recs f1 arr n i d with
      | none => none
      | some r => delLoop recs f2 r.1 r.2.1 (i + f1) r.2.2 := by
  induction f1 generalizing arr n i d with
  | zero => simp [delLoop]
  | succ f ih =>
    have harith : f + 1 + f2 = (f + f2) + 1 := by omega
    rw [harith]
    simp only [delLoop]
    cases hdi : delInner (arr.getD i default) arr n i d recs with
    | none => rfl
    | some r =>
      obtain ⟨arr', n', d'⟩ := r
      dsimp only
      rw [ih]
      have : i + 1 + f = i + (f + 1) := by omega
      rw [this]

theorem delLoop_nomatch (recs : List RR) (fuel : Nat) (arr : List RR) (n i : Nat)
    (d : List RR)
    (h : ∀ j, i ≤ j → j < i + fuel →
      ∀ r ∈ recs, compareRecords (arr.getD j default) r = false) :
    delLoop recs fuel arr n i d = some (arr, n, d) := by
  induction fuel generalizing i with
  | zero => rfl
  | succ f ih =>
    simp only [delLoop, delInner_nomatch _ _ _ _ _ _ (h i le_rfl (by omega))]
    exact ih (i + 1) (fun j hj1 hj2 r hr => h j (by omega) (by omega) r hr)

theorem getD_mem_of_lt {l : List RR} {j : Nat} (h : j < l.length) (dflt : RR) :
    l.getD j dflt ∈ l := by
  induction l generalizing j with
  | nil => simp at h
  | cons x xs ih =>
    cases j with
    | zero => simp [List.getD_cons_zero]
    | succ jj =>
      rw [List.getD_cons_succ]
      exact List.mem_cons_of_mem _ (ih (by simpa using h))

theorem getD_append_self (l1 : List RR) (x : RR) (l2 : List RR) (d : RR) :
    (l1 ++ x :: l2).getD l1.length d = x := by
  induction l1 with
  | nil => simp [List.getD_cons_zero]
  | cons y ys ih => simpa [List.getD_cons_succ] using ih

theorem sum_map_zero_all {α : Type} (f : α → Nat) {l : List α}
    (h : (l.map f).sum = 0) : ∀ x ∈ l, f x = 0 := by
  induction l with
  | nil => simp
  | cons a as ih =>
    simp only [List.map_cons, List.sum_cons] at h
    intro x hx
    rcases List.mem_cons.mp hx with rfl | hx'
    · omega
    · exact ih (by omega) x hx'

theorem sum_map_one_split {α : Type} (f : α → Nat) {l : List α}
    (h : (l.map f).sum = 1) :
    ∃ l1 x l2, l = l1 ++ x :: l2 ∧ f x = 1 ∧
      (∀ y ∈ l1, f y = 0) ∧ (∀ y ∈ l2, f y = 0) := by
  induction l with
  | nil => simp at h
  | cons a as ih =>
    simp only [List.map_cons, List.sum_cons] at h
    by_cases ha : f a = 1
    · have hz : (as.map f).sum = 0 := by omega
      exact ⟨[], a, as, by simp, ha, by simp, sum_map_zero_all f hz⟩
    · have h1 : f a = 0 := by omega
      have h2 : (as.map f).sum = 1 := by omega
      obtain ⟨l1, x, l2, heq, hx, hl1, hl2⟩ := ih h2
      refine ⟨a :: l1, x, l2, by simp [heq], hx, ?_, hl2⟩
      intro y hy
      rcases List.mem_cons.mp hy with rfl | hy'
      · exact h1
      · exact hl1 y hy'

theorem filter_length_one_split {α : Type} (p : α → Bool) {l : List α}
    (h : (l.filter p).length = 1) :
    ∃ l1 x l2, l = l1 ++ x :: l2 ∧ p x = true ∧
      (∀ y ∈ l1, p y = false) ∧ (∀ y ∈ l2, p y = false) := by
  induction l with
  | nil => simp at h
  | cons a as ih =>
    by_cases pa : p a = true
    · rw [List.filter_cons_of_pos pa] at h
      simp only [List.length_cons, Nat.add_left_inj] at h
      have hnil : as.filter p = [] := List.length_eq_zero.mp (by omega)
      refine ⟨[], a, as, by simp, pa, by simp, ?_⟩
      intro y hy
      have := List.filter_eq_nil_iff.mp hnil y hy
      simpa using this
    · have pa' : p a = false := by simpa using pa
      rw [List.filter_cons_of_neg (by simp [pa'])] at h
      obtain ⟨l1, x, l2, heq, hx, hl1, hl2⟩ := ih h
      refine ⟨a :: l1, x, l2, by simp [heq], hx, ?_, hl2⟩
      intro y hy
      rcases List.mem_cons.mp hy with rfl | hy'
      · exact pa'
      · exact hl1 y hy'

theorem deleteRecords_atMostOne (entries recs : List RR)
    (h : matchCount entries recs ≤ 1) :
    deleteRecords entries recs =
      some (specDeleteRecords entries recs, specMatchedRecords entries recs) := by
  have hcases : matchCount entries recs = 0 ∨ matchCount entries recs = 1 := by
    unfold matchCount at h ⊢
    omega
  rcases hcases with h0 | h1
  · -- no matching pair at all: the loop is the identity
    have hall : ∀ e ∈ entries, ∀ r ∈ recs, compareRecords e r = false := by
      intro e he r hr
      have hlen := sum_map_zero_all _ h0 e he
      have hnil : recs.filter (fun r => compareRecords e r) = [] :=
        List.length_eq_zero.mp hlen
      simpa using List.filter_eq_nil_iff.mp hnil r hr
    have hloop := delLoop_nomatch recs entries.length entries entries.length 0 []
      (fun j _ hj2 r hr => hall _ (getD_mem_of_lt (by omega) default) r hr)
    have hsd : specDeleteRecords entries recs = entries := by
      apply List.filter_eq_self.mpr
      intro e he
      have : (recs.any fun r => compareRecords e r) = false :=
        List.any_eq_false.mpr (fun r hr => by simp [hall e he r hr])
      simp [this]
    have hsm : specMatchedRecords entries recs = [] := by
      apply List.filter_eq_nil_iff.mpr
      intro r hr hany
      rcases List.any_eq_true.mp hany with ⟨e, he, hce⟩
      simp [hall e he r hr] at hce
    rw [deleteRecords, hloop, hsd, hsm, Option.map_some']
    rw [List.take_length]
  · -- exactly one matching pair
    obtain ⟨pre, e0, post, hsplit, hone, hpre, hpost⟩ :=
      sum_map_one_split (fun e => (recs.filter (fun r => compareRecords e r)).length) h1
    subst hsplit
    have hprefree : ∀ e ∈ pre, ∀ r ∈ recs, compareRecords e r = false := by
      intro e he r hr
      have hnil : recs.filter (fun r => compareRecords e r) = [] :=
        List.length_eq_zero.mp (hpre e he)
      simpa using List.filter_eq_nil_iff.mp hnil r hr
    have hpostfree : ∀ e ∈ post, ∀ r ∈ recs, compareRecords e r = false := by
      intro e he r hr
      have hnil : recs.filter (fun r => compareRecords e r) = [] :=
        List.length_eq_zero.mp (hpost e he)
      simpa using List.filter_eq_nil_iff.mp hnil r hr
    obtain ⟨r1, r0, r2, hrsplit, hr0, hr1, hr2⟩ :=
      filter_length_one_split (fun r => compareRecords e0 r) hone
    subst hrsplit
    have hNlen : (pre ++ e0 :: post).length = pre.length + (1 + post.length) := by
      simp [List.length_append]
      omega
    -- phase A: entries before the matching one never fire
    have phaseA : delLoop (r1 ++ r0 :: r2) pre.length (pre ++ e0 :: post)
        (pre.length + (1 + post.length)) 0 [] =
        some (pre ++ e0 :: post, pre.length + (1 + post.length), []) := by
      apply delLoop_nomatch
      intro j _ hj2 r hr
      have hj : j < pre.length := by omega
      rw [List.getD_append _ _ _ _ hj]
      exact hprefree _ (getD_mem_of_lt hj default) r hr
    -- phase B: the matching entry fires exactly once
    have hinner : delInner e0 (pre ++ e0 :: post) (pre.length + (1 + post.length))
        pre.length [] (r1 ++ r0 :: r2) =
        some (shiftDelete (pre ++ e0 :: post) pre.length (pre.length + (1 + post.length)),
          pre.length + (1 + post.length) - 1, [r0]) := by
      have := delInner_single e0 (pre ++ e0 :: post) (pre.length + (1 + post.length))
        pre.length [] r1 r2 r0 hr1 hr2 hr0 (by omega)
      simpa using this
    have phaseB : delLoop (r1 ++ r0 :: r2) 1 (pre ++ e0 :: post)
        (pre.length + (1 + post.length)) pre.length [] =
        some (shiftDelete (pre ++ e0 :: post) pre.length (pre.length + (1 + post.length)),
          pre.length + (1 + post.length) - 1, [r0]) := by
      simp only [delLoop, getD_append_self, hinner]
    -- the backing array after the in-place deletion
    have hdropmid : (pre ++ e0 :: post).drop (pre.length + 1) = post := by
      rw [show pre ++ e0 :: post = (pre ++ [e0]) ++ post from by simp]
      rw [show pre.length + 1 = (pre ++ [e0]).length from by simp]
      exact List.drop_left _ _
    have harr1 : shiftDelete (pre ++ e0 :: post) pre.length (pre.length + (1 + post.length)) =
        pre ++ (post ++ (pre ++ e0 :: post).drop (pre.length + (1 + post.length) - 1)) := by
      unfold shiftDelete
      rw [List.take_of_length_le (show (pre ++ e0 :: post).length ≤
        pre.length + (1 + post.length) from by omega)]
      rw [List.take_left, hdropmid, List.append_assoc]
    -- phase C: the shifted tail never fires either
    have hdroptail : ∀ x ∈ (pre ++ e0 :: post).drop (pre.length + (1 + post.length) - 1),
        0 < post.length → x ∈ post := by
      intro x hx hpp
      have heq : pre ++ e0 :: post = (pre ++ [e0]) ++ post := by simp
      have hidx : pre.length + (1 + post.length) - 1 =
          (pre ++ [e0]).length + (post.length - 1) := by
        simp only [List.length_append, List.length_cons, List.length_nil]
        omega
      rw [heq, hidx, List.drop_append] at hx
      exact List.drop_subset _ _ hx
    have harr1len : (pre ++ (post ++ (pre ++ e0 :: post).drop
        (pre.length + (1 + post.length) - 1))).length = pre.length + (1 + post.length) := by
      simp only [List.length_append, List.length_drop, List.length_cons]
      omega
    have phaseC : delLoop (r1 ++ r0 :: r2) post.length
        (pre ++ (post ++ (pre ++ e0 :: post).drop (pre.length + (1 + post.length) - 1)))
        (pre.length + (1 + post.length) - 1) (pre.length + 1) [r0] =
        some (pre ++ (post ++ (pre ++ e0 :: post).drop (pre.length + (1 + post.length) - 1)),
          pre.length + (1 + post.length) - 1, [r0]) := by
      apply delLoop_nomatch
      intro j hj1 hj2 r hr
      have hpp : 0 < post.length := by omega
      have hjlen : j < (pre ++ (post ++ (pre ++ e0 :: post).drop
          (pre.length + (1 + post.length) - 1))).length := by
        rw [harr1len]; omega
      have hx := getD_mem_of_lt hjlen default
      rcases List.mem_append.mp hx with hxp | hxr
      · exact hprefree _ hxp r hr
      · rcases List.mem_append.mp hxr with hxq | hxd
        · exact hpostfree _ hxq r hr
        · exact hpostfree _ (hdroptail _ hxd hpp) r hr
    -- assemble the three phases
    have hrun : delLoop (r1 ++ r0 :: r2) (pre.length + (1 + post.length))
        (pre ++ e0 :: post) (pre.length + (1 + post.length)) 0 [] =
        some (pre ++ (post ++ (pre ++ e0 :: post).drop (pre.length + (1 + post.length) - 1)),
          pre.length + (1 + post.length) - 1, [r0]) := by
      rw [delLoop_add, phaseA]
      dsimp only
      rw [Nat.zero_add]
      rw [delLoop_add, phaseB]
      dsimp only
      rw [harr1]
      exact phaseC
    -- the surviving slice
    have htake : (pre ++ (post ++ (pre ++ e0 :: post).drop
        (pre.length + (1 + post.length) - 1))).take (pre.length + (1 + post.length) - 1) =
        pre ++ post := by
      rw [← List.append_assoc]
      exact List.take_left' (by simp only [List.length_append]; omega)
    -- the specified results
    have hanyE0 : ((r1 ++ r0 :: r2).any fun r => compareRecords e0 r) = true :=
      List.any_eq_true.mpr ⟨r0, by simp, hr0⟩
    have hkeep : ∀ e ∈ pre ++ post,
        (!(r1 ++ r0 :: r2).any fun r => compareRecords e r) = true := by
      intro e he
      have hfalse : ((r1 ++ r0 :: r2).any fun r => compareRecords e r) = false := by
        apply List.any_eq_false.mpr
        intro r hrm
        rcases List.mem_append.mp he with hh | hh
        · simp [hprefree e hh r hrm]
        · simp [hpostfree e hh r hrm]
      simp [hfalse]
    have hsd : specDeleteRecords (pre ++ e0 :: post) (r1 ++ r0 :: r2) = pre ++ post := by
      unfold specDeleteRecords
      have hfpre : pre.filter (fun e => !(r1 ++ r0 :: r2).any fun r => compareRecords e r) =
          pre := List.filter_eq_self.mpr (fun e he => hkeep e (List.mem_append_left _ he))
      have hfpost : post.filter (fun e => !(r1 ++ r0 :: r2).any fun r => compareRecords e r) =
          post := List.filter_eq_self.mpr (fun e he => hkeep e (List.mem_append_right _ he))
      rw [List.filter_append, List.filter_cons, hfpre, hanyE0]
      simp [hfpost]
      intro a ha
      refine ⟨fun x hx => ?_, ?_, fun x hx => ?_⟩
      · exact hpostfree a ha x (List.mem_append_left _ hx)
      · exact hpostfree a ha r0 (List.mem_append_right _ (List.mem_cons_self _ _))
      · exact hpostfree a ha x (List.mem_append_right _ (List.mem_cons_of_mem _ hx))
    have hsm : specMatchedRecords (pre ++ e0 :: post) (r1 ++ r0 :: r2) = [r0] := by
      unfold specMatchedRecords
      have hany0 : ((pre ++ e0 :: post).any fun e => compareRecords e r0) = true :=
        List.any_eq_true.mpr ⟨e0, by simp, hr0⟩
      have hnone : ∀ r, r ∈ r1 ∨ r ∈ r2 →
          ((pre ++ e0 :: post).any fun e => compareRecords e r) = false := by
        intro r hror
        have hrmem : r ∈ r1 ++ r0 :: r2 := by
          rcases hror with hh | hh
          · exact List.mem_append_left _ hh
          · exact List.mem_append_right _ (List.mem_cons_of_mem _ hh)
        apply List.any_eq_false.mpr
        intro e he
        rcases List.mem_append.mp he with hep | hee
        · simp [hprefree e hep r hrmem]
        · rcases List.mem_cons.mp hee with rfl | heq
          · rcases hror with hh | hh
            · simp [hr1 r hh]
            · simp [hr2 r hh]
          · simp [hpostfree e heq r hrmem]
      have hf1 : r1.filter (fun r => (pre ++ e0 :: post).any fun e => compareRecords e r) =
          [] := List.filter_eq_nil_iff.mpr (fun r hrm => by simp [hnone r (Or.inl hrm)])
      have hf2 : r2.filter (fun r => (pre ++ e0 :: post).any fun e => compareRecords e r) =
          [] := List.filter_eq_nil_iff.mpr (fun r hrm => by simp [hnone r (Or.inr hrm)])
      rw [List.filter_append, List.filter_cons, hf1, hany0]
      simp [hf2]
      intro a ha
      refine ⟨fun x hx => ?_, ?_, fun x hx => ?_⟩
      · exact hprefree x hx a (List.mem_append_right _ (List.mem_cons_of_mem _ ha))
      · exact hr2 a ha
      · exact hpostfree x hx a (List.mem_append_right _ (List.mem_cons_of_mem _ ha))
    rw [deleteRecords, hNlen, hrun, Option.map_some']
    dsimp only
    rw [htake, hsd, hsm]

/-- C9 amended: `DeleteRecords` removes value-matching entries in place
while iterating, which only realises the specified behaviour when at most
one (stored entry, given record) pair is value-equal: in that case the
zone's stored list afterwards equals the prior list with the matched entry
removed (order preserved) and the matched record is returned.  (With more
matching pairs, entries that shift into a deleted slot are skipped — see
the counterexample — or the slice operation panics.) -/
theorem C9_DeleteRecords_amended (p : ProviderState) (zone : String)
    (entries recs : List RR)
    (hz : alistGet zone p = some entries)
    (hm : matchCount entries recs ≤ 1) :
    DeleteRecords p zone recs =
      some (alistSet zone (specDeleteRecords entries recs) p,
        specMatchedRecords entries recs) := by
  simp only [DeleteRecords, hz]
  rw [deleteRecords_atMostOne entries recs hm, Option.map_some']

theorem C9_DeleteRecords_amended_witness :
    (alistGet "example.com." [("example.com.", [rrA, rrB])] = some [rrA, rrB] ∧
     matchCount [rrA, rrB] [rrA] ≤ 1) ∧
    DeleteRecords [("example.com.", [rrA, rrB])] "example.com." [rrA] =
      some ([("example.com.", [rrB])], [rrA]) :=
  ⟨⟨by decide, by decide⟩,
   by
    have := C9_DeleteRecords_amended [("example.com.", [rrA, rrB])] "example.com."
      [rrA, rrB] [rrA] (by decide) (by decide)
    rw [this]
    decide⟩

/-! ## Eviction engine (`internal/eviction`) -/

/-- `config.EvictionConfig`: durations are integer seconds, sizes MiB. -/
structure EvictionConfig where
  interactionTTL : Int
  hookTTL : Int
  maxPerHook : Nat
  maxMemoryMB : Nat
deriving DecidableEq, Repr

/-- `eviction.Metrics`: four int64 counters. -/
structure Metrics where
  evictionsTTL : Int
  evictionsLimit : Int
  evictionsMemory : Int
  evictionsHookTTL : Int
deriving DecidableEq, Repr

/-- The zero counters a fresh `Evictor` starts with (`NewEvictor`). -/
def Metrics.init : Metrics := ⟨0, 0, 0, 0⟩

/-- `Evictor.evictByTTL`: snapshots all interactions and, per hook, deletes
those with `timestamp < now − interaction_ttl`, counting the deleted ids.
`now` is the clock reading at the start of the pass. -/
def evictByTTL (cfg : EvictionConfig) (m : MemoryManager) (now : Int) :
    MemoryManager × Nat :=
  let cutoff := now - cfg.interactionTTL
  (GetAllInteractions m).foldl
    (fun acc p =>
      let toDelete := (p.2.filter (fun i => i.timestamp < cutoff)).map (·.id)
      if 0 < toDelete.length then
        (DeleteInteractions acc.1 p.1 toDelete, acc.2 + toDelete.length)
      else acc)
    (m, 0)

/-- `Evictor.evictByHookTTL`: deletes every hook with
`created_at < now − hook_ttl` (cascading), counting deleted hooks. -/
def evictByHookTTL (cfg : EvictionConfig) (m : MemoryManager) (now : Int) :
    MemoryManager × Nat :=
  let cutoff := now - cfg.hookTTL
  (GetAllHooks m).foldl
    (fun acc hk =>
      if hk.createdAt < cutoff then (DeleteHook acc.1 hk.id, acc.2 + 1) else acc)
    (m, 0)

/-- `Evictor.evictByLimit`: for every hook holding more than `max_per_hook`
interactions, deletes the ids of the oldest surplus (the slice is in
insertion order). -/
def evictByLimit (cfg : EvictionConfig) (m : MemoryManager) :
    MemoryManager × Nat :=
  (GetAllInteractions m).foldl
    (fun acc p =>
      if cfg.maxPerHook < p.2.length then
        let toEvict := p.2.length - cfg.maxPerHook
        let toDelete := (p.2.take toEvict).map (·.id)
        (DeleteInteractions acc.1 p.1 toDelete, acc.2 + toDelete.length)
      else acc)
    (m, 0)

/-- Ascending insertion by `createdAt`; `sortByCreated` below produces the
ascending order that the source's bubble sort over `CreatedAt` yields. -/
def insertByCreated (hk : Hook) : List Hook → List Hook
  | [] => [hk]
  | x :: xs =>
    if x.createdAt ≤ hk.createdAt then x :: insertByCreated hk xs else hk :: x :: xs

/-- The oldest-first ordering of the hooks (`evictByMemory`'s sort). -/
def sortByCreated : List Hook → List Hook
  | [] => []
  | hk :: t => insertByCreated hk (sortByCreated t)

/-- The deletion loop of `Evictor.evictByMemory`: deletes oldest hooks until
the heap reading drops below the target, re-measuring (after a forced GC)
every 10 deleted hooks; `heap` models `runtime.ReadMemStats`'s heap-in-use
MiB as a function of the store state. -/
def memLoop (heap : MemoryManager → Nat) (target : Nat)
    (allInts : List (String × List Interaction)) :
    List Hook → MemoryManager → Nat → Nat → Nat → MemoryManager × Nat
  | [], m, _, _, total => (m, total)
  | hk :: rest, m, reading, hooksEvicted, total =>
    if reading < target then (m, total)
    else
      let cnt := ((alistGet hk.id allInts).getD []).length
      let m' := DeleteHook m hk.id
      let hooksEvicted' := hooksEvicted + 1
      let reading' := if hooksEvicted' % 10 = 0 then heap m' else reading
      memLoop heap target allInts rest m' reading' hooksEvicted' (total + cnt)

/-- `Evictor.evictByMemory`: when the measured heap is at or above 90% of
`max_memory_mb`, deletes whole hooks oldest-first until below 80%
(`int(float64(max)*0.9)` and `*0.8` are modelled by exact integer
arithmetic).  Returns the number of evicted interactions. -/
def evictByMemory (cfg : EvictionConfig) (heap : MemoryManager → Nat)
    (m : MemoryManager) : MemoryManager × Nat :=
  let reading := heap m
  let threshold := cfg.maxMemoryMB * 9 / 10
  if reading < threshold then (m, 0)
  else
    let target := cfg.maxMemoryMB * 8 / 10
    let hooks := GetAllHooks m
    if hooks.length = 0 then (m, 0)
    else
      memLoop heap target (GetAllInteractions m) (sortByCreated hooks) m reading 0 0

/-- `Evictor.runEviction`: the four passes in order, each incrementing its
strategy counter by the number of evicted items when that number is
positive; `now1`/`now2` are the clock readings at the start of the
interaction-TTL and hook-TTL passes. -/
def runEviction (cfg : EvictionConfig) (heap : MemoryManager → Nat)
    (m : MemoryManager) (met : Metrics) (now1 now2 : Int) :
    MemoryManager × Metrics :=
  let r1 := evictByTTL cfg m now1
  let met1 :=
    if 0 < r1.2 then { met with evictionsTTL := met.evictionsTTL + (r1.2 : Int) } else met
  let r2 := evictByHookTTL cfg r1.1 now2
  let met2 :=
    if 0 < r2.2 then
      { met1 with evictionsHookTTL := met1.evictionsHookTTL + (r2.2 : Int) }
    else met1
  let r3 := evictByLimit cfg r2.1
  let met3 :=
    if 0 < r3.2 then
      { met2 with evictionsLimit := met2.evictionsLimit + (r3.2 : Int) }
    else met2
  let r4 := evictByMemory cfg heap r3.1
  let met4 :=
    if 0 < r4.2 then
      { met3 with evictionsMemory := met3.evictionsMemory + (r4.2 : Int) }
    else met3
  (r4.1, met4)

/-! ### Eviction pass lemmas -/

theorem alistKey_mem_of_get {α : Type} {k : String} {v : α} {l : List (String × α)}
    (h : alistGet k l = some v) : k ∈ alistKeys l :=
  List.mem_map.mpr ⟨(k, v), alistGet_mem h, rfl⟩

theorem alistGet_erase_some {α : Type} {k k0 : String} {v : α} {l : List (String × α)}
    (h : alistGet k (alistErase k0 l) = some v) : alistGet k l = some v := by
  by_cases hk : k = k0
  · subst hk
    rw [alistGet_erase_self] at h
    exact absurd h (by simp)
  · rwa [alistGet_erase _ _ _ hk] at h

/-- Generic lemma for the interaction passes: folding a step that rewrites
each processed entry's list pointwise (and touches nothing else) maps every
entry of the snapshot through `upd`. -/
theorem foldl_inter_pointwise
    (step : MemoryManager × Nat → (String × List Interaction) → MemoryManager × Nat)
    (upd : List Interaction → List Interaction)
    (hstep : ∀ acc p, alistGet p.1 acc.1.interactions = some p.2 →
      alistGet p.1 (step acc p).1.interactions = some (upd p.2) ∧
      (∀ k', k' ≠ p.1 →
        alistGet k' (step acc p).1.interactions = alistGet k' acc.1.interactions) ∧
      (step acc p).1.hooks = acc.1.hooks ∧
      alistKeys (step acc p).1.interactions = alistKeys acc.1.interactions) :
    ∀ (es : List (String × List Interaction)) (acc : MemoryManager × Nat),
      (alistKeys es).Nodup →
      (∀ p ∈ es, alistGet p.1 acc.1.interactions = some p.2) →
      (∀ p ∈ es, alistGet p.1 (es.foldl step acc).1.interactions = some (upd p.2)) ∧
      (∀ k', k' ∉ alistKeys es →
        alistGet k' (es.foldl step acc).1.interactions = alistGet k' acc.1.interactions) ∧
      (es.foldl step acc).1.hooks = acc.1.hooks ∧
      alistKeys (es.foldl step acc).1.interactions = alistKeys acc.1.interactions := by
  intro es
  induction es with
  | nil => exact fun acc _ _ => ⟨fun p hp => absurd hp (List.not_mem_nil p), fun k' _ => rfl, rfl, rfl⟩
  | cons p ps ih =>
    intro acc hnd hcur
    have hndc := List.nodup_cons.mp (by simpa only [alistKeys, List.map_cons] using hnd)
    have hp := hstep acc p (hcur p (List.mem_cons_self _ _))
    have hcur' : ∀ q ∈ ps, alistGet q.1 (step acc p).1.interactions = some q.2 := by
      intro q hq
      have hqne : q.1 ≠ p.1 := by
        intro hh
        exact hndc.1 (hh ▸ List.mem_map.mpr ⟨q, hq, rfl⟩)
      rw [hp.2.1 q.1 hqne]
      exact hcur q (List.mem_cons_of_mem _ hq)
    have hrest := ih (step acc p) hndc.2 hcur'
    have hfold : (p :: ps).foldl step acc = ps.foldl step (step acc p) := rfl
    refine ⟨?_, ?_, ?_, ?_⟩
    · intro q hq
      rcases List.mem_cons.mp hq with rfl | hq'
      · rw [hfold, hrest.2.1 q.1 (fun hh => hndc.1 hh)]
        exact hp.1
      · rw [hfold]
        exact hrest.1 q hq'
    · intro k' hk'
      have hk'p : k' ≠ p.1 := by
        intro hh
        exact hk' (by simp [alistKeys, hh])
      have hk'ps : k' ∉ alistKeys ps := by
        intro hh
        exact hk' (by simp only [alistKeys, List.map_cons]; exact List.mem_cons_of_mem _ hh)
      rw [hfold, hrest.2.1 k' hk'ps, hp.2.1 k' hk'p]
    · rw [hfold, hrest.2.2.1, hp.2.2.1]
    · rw [hfold, hrest.2.2.2, hp.2.2.2]

/-- The pointwise effect of the interaction-TTL pass on one hook's list. -/
def updTTL (cutoff : Int) (l : List Interaction) : List Interaction :=
  let toDelete := (l.filter (fun i => i.timestamp < cutoff)).map (·.id)
  if 0 < toDelete.length then l.filter (fun i => ! toDelete.contains i.id) else l

/-- The pointwise effect of the per-hook-cap pass on one hook's list. -/
def updLimit (maxPerHook : Nat) (l : List Interaction) : List Interaction :=
  if maxPerHook < l.length then
    l.filter (fun i => ! ((l.take (l.length - maxPerHook)).map (·.id)).contains i.id)
  else l

theorem DeleteInteractions_effect (m : MemoryManager) (k : String) (ids : List String)
    (l : List Interaction) (h : alistGet k m.interactions = some l) :
    alistGet k (DeleteInteractions m k ids).interactions =
      some (l.filter (fun i => ! ids.contains i.id)) ∧
    (∀ k', k' ≠ k →
      alistGet k' (DeleteInteractions m k ids).interactions = alistGet k' m.interactions) ∧
    (DeleteInteractions m k ids).hooks = m.hooks ∧
    alistKeys (DeleteInteractions m k ids).interactions = alistKeys m.interactions := by
  have hD : DeleteInteractions m k ids =
      { m with interactions :=
          alistSet k (l.filter (fun i => ! ids.contains i.id)) m.interactions } := by
    simp only [DeleteInteractions, h]
  rw [hD]
  exact ⟨alistGet_set_self _ _ _, fun k' hk' => alistGet_set_ne _ _ _ _ hk', rfl,
    alistKeys_set_of_mem _ _ _ (alistKey_mem_of_get h)⟩

theorem evictByTTL_pointwise (cfg : EvictionConfig) (m : MemoryManager) (now : Int)
    (hnd : (alistKeys m.interactions).Nodup) :
    (∀ k l, alistGet k m.interactions = some l →
      alistGet k (evictByTTL cfg m now).1.interactions =
        some (updTTL (now - cfg.interactionTTL) l)) ∧
    (evictByTTL cfg m now).1.hooks = m.hooks ∧
    alistKeys (evictByTTL cfg m now).1.interactions = alistKeys m.interactions := by
  have hstep : ∀ (acc : MemoryManager × Nat) (p : String × List Interaction),
      alistGet p.1 acc.1.interactions = some p.2 →
      alistGet p.1 ((fun acc p =>
        let toDelete := (p.2.filter (fun i => i.timestamp < now - cfg.interactionTTL)).map (·.id)
        if 0 < toDelete.length then
          (DeleteInteractions acc.1 p.1 toDelete, acc.2 + toDelete.length)
        else acc) acc p).1.interactions = some (updTTL (now - cfg.interactionTTL) p.2) ∧
      (∀ k', k' ≠ p.1 → alistGet k' ((fun acc p =>
        let toDelete := (p.2.filter (fun i => i.timestamp < now - cfg.interactionTTL)).map (·.id)
        if 0 < toDelete.length then
          (DeleteInteractions acc.1 p.1 toDelete, acc.2 + toDelete.length)
        else acc) acc p).1.interactions = alistGet k' acc.1.interactions) ∧
      ((fun acc p =>
        let toDelete := (p.2.filter (fun i => i.timestamp < now - cfg.interactionTTL)).map (·.id)
        if 0 < toDelete.length then
          (DeleteInteractions acc.1 p.1 toDelete, acc.2 + toDelete.length)
        else acc) acc p).1.hooks = acc.1.hooks ∧
      alistKeys ((fun acc p =>
        let toDelete := (p.2.filter (fun i => i.timestamp < now - cfg.interactionTTL)).map (·.id)
        if 0 < toDelete.length then
          (DeleteInteractions acc.1 p.1 toDelete, acc.2 + toDelete.length)
        else acc) acc p).1.interactions = alistKeys acc.1.interactions := by
    intro acc p hget
    dsimp only
    by_cases hcond : 0 <
        ((p.2.filter (fun i => i.timestamp < now - cfg.interactionTTL)).map (·.id)).length
    · rw [if_pos hcond]
      have heff := DeleteInteractions_effect acc.1 p.1
        ((p.2.filter (fun i => i.timestamp < now - cfg.interactionTTL)).map (·.id)) p.2 hget
      refine ⟨?_, heff.2.1, heff.2.2.1, heff.2.2.2⟩
      rw [heff.1]
      simp only [updTTL, if_pos hcond]
    · rw [if_neg hcond]
      refine ⟨?_, fun k' _ => rfl, rfl, rfl⟩
      rw [hget]
      simp only [updTTL, if_neg hcond]
  have hmain := foldl_inter_pointwise _ _ hstep m.interactions (m, 0) hnd
    (fun p hp => alistGet_of_mem_nodup (by
      have : ((p.1, p.2) : String × List Interaction) = p := rfl
      rw [this]
      exact hp) hnd)
  refine ⟨?_, hmain.2.2.1, hmain.2.2.2⟩
  intro k l hget
  have := hmain.1 (k, l) (alistGet_mem hget)
  exact this

theorem evictByLimit_pointwise (cfg : EvictionConfig) (m : MemoryManager)
    (hnd : (alistKeys m.interactions).Nodup) :
    (∀ k l, alistGet k m.interactions = some l →
      alistGet k (evictByLimit cfg m).1.interactions = some (updLimit cfg.maxPerHook l)) ∧
    (evictByLimit cfg m).1.hooks = m.hooks ∧
    alistKeys (evictByLimit cfg m).1.interactions = alistKeys m.interactions := by
  have hstep : ∀ (acc : MemoryManager × Nat) (p : String × List Interaction),
      alistGet p.1 acc.1.interactions = some p.2 →
      alistGet p.1 ((fun acc p =>
        if cfg.maxPerHook < p.2.length then
          let toEvict := p.2.length - cfg.maxPerHook
          let toDelete := (p.2.take toEvict).map (·.id)
          (DeleteInteractions acc.1 p.1 toDelete, acc.2 + toDelete.length)
        else acc) acc p).1.interactions = some (updLimit cfg.maxPerHook p.2) ∧
      (∀ k', k' ≠ p.1 → alistGet k' ((fun acc p =>
        if cfg.maxPerHook < p.2.length then
          let toEvict := p.2.length - cfg.maxPerHook
          let toDelete := (p.2.take toEvict).map (·.id)
          (DeleteInteractions acc.1 p.1 toDelete, acc.2 + toDelete.length)
        else acc) acc p).1.interactions = alistGet k' acc.1.interactions) ∧
      ((fun acc p =>
        if cfg.maxPerHook < p.2.length then
          let toEvict := p.2.length - cfg.maxPerHook
          let toDelete := (p.2.take toEvict).map (·.id)
          (DeleteInteractions acc.1 p.1 toDelete, acc.2 + toDelete.length)
        else acc) acc p).1.hooks = acc.1.hooks ∧
      alistKeys ((fun acc p =>
        if cfg.maxPerHook < p.2.length then
          let toEvict := p.2.length - cfg.maxPerHook
          let toDelete := (p.2.take toEvict).map (·.id)
          (DeleteInteractions acc.1 p.1 toDelete, acc.2 + toDelete.length)
        else acc) acc p).1.interactions = alistKeys acc.1.interactions := by
    intro acc p hget
    dsimp only
    by_cases hcond : cfg.maxPerHook < p.2.length
    · rw [if_pos hcond]
      have heff := DeleteInteractions_effect acc.1 p.1
        ((p.2.take (p.2.length - cfg.maxPerHook)).map (·.id)) p.2 hget
      refine ⟨?_, heff.2.1, heff.2.2.1, heff.2.2.2⟩
      rw [heff.1]
      simp only [updLimit, if_pos hcond]
    · rw [if_neg hcond]
      refine ⟨?_, fun k' _ => rfl, rfl, rfl⟩
      rw [hget]
      simp only [updLimit, if_neg hcond]
  have hmain := foldl_inter_pointwise _ _ hstep m.interactions (m, 0) hnd
    (fun p hp => alistGet_of_mem_nodup (by
      have : ((p.1, p.2) : String × List Interaction) = p := rfl
      rw [this]
      exact hp) hnd)
  refine ⟨?_, hmain.2.2.1, hmain.2.2.2⟩
  intro k l hget
  exact hmain.1 (k, l) (alistGet_mem hget)

/-- The hook-TTL fold: deletes every snapshot hook older than the cutoff;
afterwards no stored hook is older than the cutoff, the surviving entries
were present before, and the id-keying facts are preserved. -/
theorem evictHook_fold (cutoff : Int) :
    ∀ (hs : List Hook) (acc : MemoryManager × Nat),
      (∀ q ∈ acc.1.hooks, q.2.id = q.1) →
      (∀ k h', alistGet k acc.1.hooks = some h' → h' ∈ hs ∨ ¬ h'.createdAt < cutoff) →
      (∀ k h', alistGet k (hs.foldl (fun a hk =>
          if hk.createdAt < cutoff then (DeleteHook a.1 hk.id, a.2 + 1) else a) acc).1.hooks =
          some h' → ¬ h'.createdAt < cutoff) ∧
      (∀ k h', alistGet k (hs.foldl (fun a hk =>
          if hk.createdAt < cutoff then (DeleteHook a.1 hk.id, a.2 + 1) else a) acc).1.hooks =
          some h' → alistGet k acc.1.hooks = some h') ∧
      (∀ k l', alistGet k (hs.foldl (fun a hk =>
          if hk.createdAt < cutoff then (DeleteHook a.1 hk.id, a.2 + 1) else a)
          acc).1.interactions = some l' → alistGet k acc.1.interactions = some l') ∧
      (alistKeys (hs.foldl (fun a hk =>
          if hk.createdAt < cutoff then (DeleteHook a.1 hk.id, a.2 + 1) else a)
          acc).1.interactions).Sublist (alistKeys acc.1.interactions) := by
  intro hs
  induction hs with
  | nil =>
    exact fun acc _ hinv =>
      ⟨fun k h' hg => (hinv k h' hg).resolve_left (by simp),
       fun _ _ hg => hg, fun _ _ hg => hg, List.Sublist.refl _⟩
  | cons hk rest ih =>
    intro acc hid hinv
    by_cases hexp : hk.createdAt < cutoff
    · have hfold : ((hk :: rest).foldl (fun a hkk =>
          if hkk.createdAt < cutoff then (DeleteHook a.1 hkk.id, a.2 + 1) else a) acc) =
          (rest.foldl (fun a hkk =>
            if hkk.createdAt < cutoff then (DeleteHook a.1 hkk.id, a.2 + 1) else a)
            (DeleteHook acc.1 hk.id, acc.2 + 1)) := by
        simp only [List.foldl_cons, if_pos hexp]
      have hid' : ∀ q ∈ (DeleteHook acc.1 hk.id).hooks, q.2.id = q.1 :=
        fun q hq => hid q (mem_of_mem_alistErase hq)
      have hinv' : ∀ k h', alistGet k (DeleteHook acc.1 hk.id).hooks = some h' →
          h' ∈ rest ∨ ¬ h'.createdAt < cutoff := by
        intro k h' hg
        have hkne : k ≠ hk.id := by
          intro hh
          rw [hh] at hg
          rw [show (DeleteHook acc.1 hk.id).hooks = alistErase hk.id acc.1.hooks from rfl,
            alistGet_erase_self] at hg
          exact absurd hg (by simp)
        have hg0 : alistGet k acc.1.hooks = some h' := alistGet_erase_some hg
        rcases hinv k h' hg0 with hmem | hok
        · rcases List.mem_cons.mp hmem with rfl | hmem'
          · have : h'.id = k := hid (k, h') (alistGet_mem hg0)
            exact absurd this.symm hkne
          · exact Or.inl hmem'
        · exact Or.inr hok
      have hrest := ih (DeleteHook acc.1 hk.id, acc.2 + 1) hid' hinv'
      rw [hfold]
      refine ⟨hrest.1, ?_, ?_, ?_⟩
      · intro k h' hg
        exact alistGet_erase_some (hrest.2.1 k h' hg)
      · intro k l' hg
        exact alistGet_erase_some (hrest.2.2.1 k l' hg)
      · exact hrest.2.2.2.trans (alistKeys_erase_sublist _ _)
    · have hfold : ((hk :: rest).foldl (fun a hkk =>
          if hkk.createdAt < cutoff then (DeleteHook a.1 hkk.id, a.2 + 1) else a) acc) =
          (rest.foldl (fun a hkk =>
            if hkk.createdAt < cutoff then (DeleteHook a.1 hkk.id, a.2 + 1) else a) acc) := by
        simp only [List.foldl_cons, if_neg hexp]
      have hinv' : ∀ k h', alistGet k acc.1.hooks = some h' →
          h' ∈ rest ∨ ¬ h'.createdAt < cutoff := by
        intro k h' hg
        rcases hinv k h' hg with hmem | hok
        · rcases List.mem_cons.mp hmem with rfl | hmem'
          · exact Or.inr hexp
          · exact Or.inl hmem'
        · exact Or.inr hok
      have hrest := ih acc hid hinv'
      rw [hfold]
      exact hrest

theorem evictByHookTTL_spec (cfg : EvictionConfig) (m : MemoryManager) (now : Int)
    (hid : ∀ q ∈ m.hooks, q.2.id = q.1) :
    (∀ k h', alistGet k (evictByHookTTL cfg m now).1.hooks = some h' →
      ¬ h'.createdAt < now - cfg.hookTTL) ∧
    (∀ k h', alistGet k (evictByHookTTL cfg m now).1.hooks = some h' →
      alistGet k m.hooks = some h') ∧
    (∀ k l', alistGet k (evictByHookTTL cfg m now).1.interactions = some l' →
      alistGet k m.interactions = some l') ∧
    (alistKeys (evictByHookTTL cfg m now).1.interactions).Sublist
      (alistKeys m.interactions) := by
  have hinv : ∀ k h', alistGet k m.hooks = some h' →
      h' ∈ GetAllHooks m ∨ ¬ h'.createdAt < now - cfg.hookTTL :=
    fun k h' hg => Or.inl (List.mem_map.mpr ⟨(k, h'), alistGet_mem hg, rfl⟩)
  exact evictHook_fold (now - cfg.hookTTL) (GetAllHooks m) (m, 0) hid hinv

/-- The memory-pressure loop only deletes whole hooks: every surviving
entry was present before. -/
theorem memLoop_sub (heap : MemoryManager → Nat) (target : Nat)
    (allInts : List (String × List Interaction)) :
    ∀ (hs : List Hook) (m : MemoryManager) (reading he total : Nat),
      (∀ k h', alistGet k (memLoop heap target allInts hs m reading he total).1.hooks =
        some h' → alistGet k m.hooks = some h') ∧
      (∀ k l', alistGet k (memLoop heap target allInts hs m reading he total).1.interactions =
        some l' → alistGet k m.interactions = some l') := by
  intro hs
  induction hs with
  | nil => exact fun m _ _ _ => ⟨fun _ _ hg => hg, fun _ _ hg => hg⟩
  | cons hk rest ih =>
    intro m reading he total
    by_cases hlt : reading < target
    · simp only [memLoop, if_pos hlt]
      exact ⟨fun _ _ hg => hg, fun _ _ hg => hg⟩
    · simp only [memLoop, if_neg hlt]
      have hrest := ih (DeleteHook m hk.id)
        (if (he + 1) % 10 = 0 then heap (DeleteHook m hk.id) else reading) (he + 1)
        (total + ((alistGet hk.id allInts).getD []).length)
      exact ⟨fun k h' hg => alistGet_erase_some (hrest.1 k h' hg),
        fun k l' hg => alistGet_erase_some (hrest.2 k l' hg)⟩

theorem evictByMemory_sub (cfg : EvictionConfig) (heap : MemoryManager → Nat)
    (m : MemoryManager) :
    (∀ k h', alistGet k (evictByMemory cfg heap m).1.hooks = some h' →
      alistGet k m.hooks = some h') ∧
    (∀ k l', alistGet k (evictByMemory cfg heap m).1.interactions = some l' →
      alistGet k m.interactions = some l') := by
  unfold evictByMemory
  by_cases h1 : heap m < cfg.maxMemoryMB * 9 / 10
  · simp only [if_pos h1]
    exact ⟨fun _ _ hg => hg, fun _ _ hg => hg⟩
  · simp only [if_neg h1]
    by_cases h2 : (GetAllHooks m).length = 0
    · simp only [if_pos h2]
      exact ⟨fun _ _ hg => hg, fun _ _ hg => hg⟩
    · simp only [if_neg h2]
      exact memLoop_sub heap (cfg.maxMemoryMB * 8 / 10) (GetAllInteractions m)
        (sortByCreated (GetAllHooks m)) m (heap m) 0 0

theorem contains_eq_true_of_mem {l : List String} {s : String} (h : s ∈ l) :
    l.contains s = true := List.elem_eq_true_of_mem h

theorem mem_of_contains_eq_true {l : List String} {s : String}
    (h : l.contains s = true) : s ∈ l := List.mem_of_elem_eq_true h

theorem updTTL_not_expired (cutoff : Int) (l : List Interaction) :
    ∀ i ∈ updTTL cutoff l, ¬ i.timestamp < cutoff := by
  intro i hi hexp
  unfold updTTL at hi
  by_cases hcond : 0 < ((l.filter (fun i => i.timestamp < cutoff)).map (·.id)).length
  · rw [if_pos hcond] at hi
    have hmem := List.mem_filter.mp hi
    have hin : i.id ∈ (l.filter (fun i => i.timestamp < cutoff)).map (·.id) :=
      List.mem_map.mpr ⟨i, List.mem_filter.mpr ⟨hmem.1, by simp [hexp]⟩, rfl⟩
    have h2 := hmem.2
    rw [contains_eq_true_of_mem hin] at h2
    simp at h2
  · rw [if_neg hcond] at hi
    have hlen0 : ((l.filter (fun i => i.timestamp < cutoff)).map (·.id)).length = 0 := by
      omega
    have hnil : l.filter (fun i => i.timestamp < cutoff) = [] :=
      List.map_eq_nil_iff.mp (List.length_eq_zero.mp hlen0)
    have := List.filter_eq_nil_iff.mp hnil i hi
    simp [hexp] at this

theorem updTTL_sublist (cutoff : Int) (l : List Interaction) :
    (updTTL cutoff l).Sublist l := by
  unfold updTTL
  by_cases hcond : 0 < ((l.filter (fun i => i.timestamp < cutoff)).map (·.id)).length
  · rw [if_pos hcond]
    exact List.filter_sublist _
  · rw [if_neg hcond]

theorem updLimit_take_nil (maxPerHook : Nat) (l : List Interaction) :
    (l.take (l.length - maxPerHook)).filter
      (fun i => ! ((l.take (l.length - maxPerHook)).map (·.id)).contains i.id) = [] := by
  apply List.filter_eq_nil_iff.mpr
  intro i hi
  have hm : i.id ∈ (l.take (l.length - maxPerHook)).map (·.id) :=
    List.mem_map.mpr ⟨i, hi, rfl⟩
  intro hcontra
  have hcontra' : (! ((l.take (l.length - maxPerHook)).map (·.id)).contains i.id) = true :=
    hcontra
  rw [contains_eq_true_of_mem hm] at hcontra'
  simp at hcontra' 

theorem updLimit_split (maxPerHook : Nat) (l : List Interaction) :
    l.filter (fun i => ! ((l.take (l.length - maxPerHook)).map (·.id)).contains i.id) =
      (l.drop (l.length - maxPerHook)).filter
        (fun i => ! ((l.take (l.length - maxPerHook)).map (·.id)).contains i.id) := by
  have hgen : ∀ (p : Interaction → Bool),
      (l.take (l.length - maxPerHook)).filter p = [] →
      l.filter p = (l.drop (l.length - maxPerHook)).filter p := by
    intro p hnil
    conv_lhs => rw [← List.take_append_drop (l.length - maxPerHook) l]
    rw [List.filter_append, hnil, List.nil_append]
  exact hgen _ (updLimit_take_nil maxPerHook l)

theorem updLimit_le (maxPerHook : Nat) (l : List Interaction) :
    (updLimit maxPerHook l).length ≤ maxPerHook := by
  unfold updLimit
  by_cases hcond : maxPerHook < l.length
  · rw [if_pos hcond, updLimit_split]
    calc ((l.drop (l.length - maxPerHook)).filter _).length
        ≤ (l.drop (l.length - maxPerHook)).length := List.length_filter_le _ _
      _ ≤ maxPerHook := by
          rw [List.length_drop]
          omega
  · rw [if_neg hcond]
    omega

theorem updLimit_sublist (maxPerHook : Nat) (l : List Interaction) :
    (updLimit maxPerHook l).Sublist l := by
  unfold updLimit
  by_cases hcond : maxPerHook < l.length
  · rw [if_pos hcond]
    exact List.filter_sublist _
  · rw [if_neg hcond]

theorem updLimit_drop (maxPerHook : Nat) (l : List Interaction)
    (hnd : (l.map (·.id)).Nodup) (hlen : maxPerHook < l.length) :
    updLimit maxPerHook l = l.drop (l.length - maxPerHook) := by
  unfold updLimit
  rw [if_pos hlen, updLimit_split]
  apply List.filter_eq_self.mpr
  intro i hi
  have hmemdrop : i.id ∈ (l.drop (l.length - maxPerHook)).map (·.id) :=
    List.mem_map.mpr ⟨i, hi, rfl⟩
  have hdisj : ((l.take (l.length - maxPerHook)).map (·.id)).Disjoint
      ((l.drop (l.length - maxPerHook)).map (·.id)) := by
    have hnd2 : ((l.take (l.length - maxPerHook)).map (·.id) ++
        (l.drop (l.length - maxPerHook)).map (·.id)).Nodup := by
      rw [← List.map_append, List.take_append_drop]
      exact hnd
    exact (List.nodup_append.mp hnd2).2.2
  have hnotin : i.id ∉ (l.take (l.length - maxPerHook)).map (·.id) :=
    fun hmm => hdisj hmm hmemdrop
  simp only [Bool.not_eq_true']
  cases hc : ((l.take (l.length - maxPerHook)).map (·.id)).contains i.id with
  | false => rfl
  | true => exact absurd (mem_of_contains_eq_true hc) hnotin

theorem pointwise_inverse {f : List Interaction → List Interaction}
    {mA mB : MemoryManager}
    (hfwd : ∀ k l, alistGet k mA.interactions = some l →
      alistGet k mB.interactions = some (f l))
    (hkeys : alistKeys mB.interactions = alistKeys mA.interactions)
    {k : String} {l : List Interaction}
    (hget : alistGet k mB.interactions = some l) :
    ∃ l0, alistGet k mA.interactions = some l0 ∧ l = f l0 := by
  cases h0 : alistGet k mA.interactions with
  | none =>
    exfalso
    have hmem : k ∈ alistKeys mB.interactions := alistKey_mem_of_get hget
    rw [hkeys] at hmem
    have := alistGet_isSome_of_key_mem hmem
    rw [h0] at this
    simp at this
  | some l0 =>
    have hb := hfwd k l0 h0
    refine ⟨l0, rfl, ?_⟩
    injection (hget.symm.trans hb)

/-- C8: after a full `runEviction` pass — taking `now1` at the start of the
interaction-TTL sub-pass and `now2` at the start of the hook-TTL sub-pass —
no stored interaction has a timestamp before `now1 − interaction_ttl`, no
stored hook was created before `now2 − hook_ttl`, no hook holds more than
`max_per_hook` interactions, and the per-hook-cap pass removed exactly the
oldest surplus in insertion order (given process-unique interaction ids). -/
theorem C8_runEviction (cfg : EvictionConfig) (heap : MemoryManager → Nat)
    (m : MemoryManager) (met : Metrics) (now1 now2 : Int)
    (hwf : WF m)
    (hids : ∀ p ∈ m.interactions, (p.2.map (·.id)).Nodup) :
    (∀ k l, alistGet k (runEviction cfg heap m met now1 now2).1.interactions = some l →
      ∀ i ∈ l, ¬ i.timestamp < now1 - cfg.interactionTTL) ∧
    (∀ k hk, alistGet k (runEviction cfg heap m met now1 now2).1.hooks = some hk →
      ¬ hk.createdAt < now2 - cfg.hookTTL) ∧
    (∀ k l, alistGet k (runEviction cfg heap m met now1 now2).1.interactions = some l →
      l.length ≤ cfg.maxPerHook) ∧
    (∀ k l, alistGet k
        (evictByHookTTL cfg (evictByTTL cfg m now1).1 now2).1.interactions = some l →
      cfg.maxPerHook < l.length →
      alistGet k (evictByLimit cfg
        (evictByHookTTL cfg (evictByTTL cfg m now1).1 now2).1).1.interactions =
        some (l.drop (l.length - cfg.maxPerHook))) := by
  have hT := evictByTTL_pointwise cfg m now1 hwf.2.1
  have hid1 : ∀ q ∈ (evictByTTL cfg m now1).1.hooks, q.2.id = q.1 := by
    rw [hT.2.1]
    exact hwf.2.2.1
  have hH := evictByHookTTL_spec cfg (evictByTTL cfg m now1).1 now2 hid1
  have hk1 : alistKeys (evictByTTL cfg m now1).1.interactions =
      alistKeys m.interactions := hT.2.2
  have hnd2 : (alistKeys
      (evictByHookTTL cfg (evictByTTL cfg m now1).1 now2).1.interactions).Nodup := by
    apply List.Sublist.nodup (hH.2.2.2.trans (by rw [hk1]))
    exact hwf.2.1
  have hL := evictByLimit_pointwise cfg
    (evictByHookTTL cfg (evictByTTL cfg m now1).1 now2).1 hnd2
  have hM := evictByMemory_sub cfg heap
    (evictByLimit cfg (evictByHookTTL cfg (evictByTTL cfg m now1).1 now2).1).1
  have hfinal : (runEviction cfg heap m met now1 now2).1 =
      (evictByMemory cfg heap
        (evictByLimit cfg (evictByHookTTL cfg (evictByTTL cfg m now1).1 now2).1).1).1 := rfl
  -- every surviving interaction list stems from a pass-2 entry through updLimit
  have hinv3 : ∀ k l,
      alistGet k (runEviction cfg heap m met now1 now2).1.interactions = some l →
      ∃ l2, alistGet k
          (evictByHookTTL cfg (evictByTTL cfg m now1).1 now2).1.interactions = some l2 ∧
        l = updLimit cfg.maxPerHook l2 := by
    intro k l hget
    rw [hfinal] at hget
    have hget3 := hM.2 k l hget
    exact pointwise_inverse hL.1 hL.2.2 hget3
  -- every pass-2 entry stems from an original entry through updTTL
  have hinv1 : ∀ k l2,
      alistGet k (evictByHookTTL cfg (evictByTTL cfg m now1).1 now2).1.interactions =
        some l2 →
      ∃ l0, alistGet k m.interactions = some l0 ∧ l2 = updTTL (now1 - cfg.interactionTTL) l0 := by
    intro k l2 hget2
    have hget1 := hH.2.2.1 k l2 hget2
    exact pointwise_inverse hT.1 hT.2.2 hget1
  refine ⟨?_, ?_, ?_, ?_⟩
  · intro k l hget i hi
    obtain ⟨l2, hget2, hl⟩ := hinv3 k l hget
    obtain ⟨l0, hget0, hl2⟩ := hinv1 k l2 hget2
    have hi2 : i ∈ l2 := (hl ▸ updLimit_sublist cfg.maxPerHook l2).mem hi
    rw [hl2] at hi2
    exact updTTL_not_expired _ l0 i hi2
  · intro k hk hget
    rw [hfinal] at hget
    have hget3 := hM.1 k hk hget
    rw [hL.2.1] at hget3
    exact hH.1 k hk hget3
  · intro k l hget
    obtain ⟨l2, _, hl⟩ := hinv3 k l hget
    rw [hl]
    exact updLimit_le cfg.maxPerHook l2
  · intro k l hget2 hlen
    have hnd : (l.map (·.id)).Nodup := by
      obtain ⟨l0, hget0, hl2⟩ := hinv1 k l hget2
      have hsub : l.Sublist l0 := hl2 ▸ updTTL_sublist _ l0
      have hnd0 := hids (k, l0) (alistGet_mem hget0)
      exact (hsub.map (·.id)).nodup hnd0
    rw [hL.1 k l hget2, updLimit_drop cfg.maxPerHook l hnd hlen]

/-- Eviction configuration used by the C8 witness. -/
def cfgC8 : EvictionConfig := ⟨10, 50, 1, 100⟩

/-- A heap-measure oracle reporting no memory pressure. -/
def heapC8 : MemoryManager → Nat := fun _ => 0

/-- Store with one hook and two pending interactions, for the C8 witness. -/
def mgrC8 : MemoryManager := addAll mgrW "abc123" [iW1, iW2]

theorem C8_runEviction_witness :
    (WF mgrC8 ∧ ∀ p ∈ mgrC8.interactions, (p.2.map (·.id)).Nodup) ∧
    ((∀ k l,
        alistGet k (runEviction cfgC8 heapC8 mgrC8 Metrics.init 100 100).1.interactions =
          some l → ∀ i ∈ l, ¬ i.timestamp < 100 - cfgC8.interactionTTL) ∧
     (∀ k hk,
        alistGet k (runEviction cfgC8 heapC8 mgrC8 Metrics.init 100 100).1.hooks =
          some hk → ¬ hk.createdAt < 100 - cfgC8.hookTTL) ∧
     (∀ k l,
        alistGet k (runEviction cfgC8 heapC8 mgrC8 Metrics.init 100 100).1.interactions =
          some l → l.length ≤ cfgC8.maxPerHook) ∧
     (∀ k l, alistGet k
          (evictByHookTTL cfgC8 (evictByTTL cfgC8 mgrC8 100).1 100).1.interactions =
          some l →
        cfgC8.maxPerHook < l.length →
        alistGet k (evictByLimit cfgC8
          (evictByHookTTL cfgC8 (evictByTTL cfgC8 mgrC8 100).1 100).1).1.interactions =
          some (l.drop (l.length - cfgC8.maxPerHook)))) :=
  ⟨⟨by decide, by decide⟩,
   C8_runEviction cfgC8 heapC8 mgrC8 Metrics.init 100 100 (by decide) (by decide)⟩

/-! ### Metrics endpoint (C10) -/

/-- The `evictions` block that `APIHandler.HandleMetrics` serialises:
`total` plus the four `by_strategy` counters. -/
structure EvictionsBlock where
  total : Int
  expired : Int
  overflow : Int
  memoryPressure : Int
  hookExpired : Int
deriving DecidableEq, Repr

/-- `APIHandler.HandleMetrics` (evictions block): `total` is the literal sum
`EvictionsTTL + EvictionsLimit + EvictionsMemory + EvictionsHookTTL`, and
`expired`/`overflow`/`memory_pressure`/`hook_expired` map directly onto the
four counters. -/
def evictionsBlock (met : Metrics) : EvictionsBlock :=
  { total := met.evictionsTTL + met.evictionsLimit + met.evictionsMemory +
      met.evictionsHookTTL
    expired := met.evictionsTTL
    overflow := met.evictionsLimit
    memoryPressure := met.evictionsMemory
    hookExpired := met.evictionsHookTTL }

/-- The metrics states the evictor can reach: `NewEvictor` starts at zero and
every update to the counters goes through `runEviction`. -/
inductive MetricsReach : Metrics → Prop
  | init : MetricsReach Metrics.init
  | step (cfg : EvictionConfig) (heap : MemoryManager → Nat) (m : MemoryManager)
      (met : Metrics) (now1 now2 : Int) : MetricsReach met →
      MetricsReach (runEviction cfg heap m met now1 now2).2

/-- Every reachable counter is non-negative: each pass only ever adds a
natural count. -/
theorem MetricsReach_nonneg (met : Metrics) (h : MetricsReach met) :
    0 ≤ met.evictionsTTL ∧ 0 ≤ met.evictionsLimit ∧
    0 ≤ met.evictionsMemory ∧ 0 ≤ met.evictionsHookTTL := by
  induction h with
  | init => exact ⟨le_refl 0, le_refl 0, le_refl 0, le_refl 0⟩
  | step cfg heap m met now1 now2 _ ih =>
    obtain ⟨h1, h2, h3, h4⟩ := ih
    dsimp only [runEviction]
    split_ifs <;> refine ⟨?_, ?_, ?_, ?_⟩ <;> dsimp only <;> omega

/-- **C10.** In every `/metrics` response the `evictions.total` field equals
the sum of the four `by_strategy` counters
(`expired + overflow + memory_pressure + hook_expired`), and for every
reachable metrics state each `by_strategy` counter is non-negative. -/
theorem C10_metrics_evictions (met : Metrics) (h : MetricsReach met) :
    (evictionsBlock met).total =
      (evictionsBlock met).expired + (evictionsBlock met).overflow +
      (evictionsBlock met).memoryPressure + (evictionsBlock met).hookExpired ∧
    0 ≤ (evictionsBlock met).expired ∧ 0 ≤ (evictionsBlock met).overflow ∧
    0 ≤ (evictionsBlock met).memoryPressure ∧
    0 ≤ (evictionsBlock met).hookExpired := by
  obtain ⟨h1, h2, h3, h4⟩ := MetricsReach_nonneg met h
  exact ⟨rfl, h1, h2, h3, h4⟩

theorem C10_metrics_evictions_witness :
    (evictionsBlock Metrics.init).total =
      (evictionsBlock Metrics.init).expired +
      (evictionsBlock Metrics.init).overflow +
      (evictionsBlock Metrics.init).memoryPressure +
      (evictionsBlock Metrics.init).hookExpired ∧
    0 ≤ (evictionsBlock Metrics.init).expired ∧
    0 ≤ (evictionsBlock Metrics.init).overflow ∧
    0 ≤ (evictionsBlock Metrics.init).memoryPressure ∧
    0 ≤ (evictionsBlock Metrics.init).hookExpired :=
  C10_metrics_evictions Metrics.init MetricsReach.init

/-! ## DNS server embedding (`dns.Server`) -/

/-- DNS query types the handler's switch distinguishes; `other` carries the
`dns.TypeToString` name of any further type. -/
inductive QType
  | a
  | aaaa
  | txt
  | ns
  | mx
  | other (name : String)
deriving DecidableEq, Repr

/-- `dns.TypeToString` on the modelled types. -/
def typeToString : QType → String
  | .a => "A"
  | .aaaa => "AAAA"
  | .txt => "TXT"
  | .ns => "NS"
  | .mx => "MX"
  | .other s => s

/-- A DNS question (`dns.Question`): query name and type. -/
structure Question where
  name : String
  qtype : QType
deriving DecidableEq, Repr

/-- The answer records the handler appends (`dns.A`, `dns.TXT`, `dns.NS`,
`dns.MX`, each with its header TTL). -/
inductive DNSAnswer
  | a (name : String) (ttl : Nat) (ip : String)
  | txt (name : String) (ttl : Nat) (txtData : String)
  | ns (name : String) (ttl : Nat) (target : String)
  | mx (name : String) (ttl : Nat) (pref : Nat) (target : String)
deriving DecidableEq, Repr

/-- The reply message (`dns.Msg` after `SetReply`): the authoritative flag
and the answer section. -/
structure DNSMsg where
  authoritative : Bool
  answers : List DNSAnswer
deriving DecidableEq, Repr

/-- `dns.Server` (the part the handler reads): the base domain and the
outbound IPv4 that `NewServer` auto-detects via `getOutboundIP`. -/
structure DNSServer where
  domain : String
  serverIP : String
deriving DecidableEq, Repr

/-- The `isOurDomain` test of `handleDNSRequest`: the query name, lowered
and with the trailing dot trimmed, equals the lowered domain or ends in
`"." + domain` (lowered). -/
def isOurDomain (domain qname : String) : Bool :=
  let qnameLower := goToLower (goTrimSfx qname ".")
  let domainLower := goToLower domain
  qnameLower == domainLower || goHasSfx qnameLower ("." ++ domainLower)

/-- `dns.Server.extractHookID`: trims the trailing dot, requires the
`"." + domain` suffix, then returns element 0 of the dot-split subdomain
part. -/
def dnsExtractHookID (domain qname : String) : String :=
  let q := goTrimSfx qname "."
  let sfx := "." ++ domain
  if goHasSfx q sfx then
    match goSplit '.' (goTrimSfx q sfx) with
    | [] => ""
    | p :: _ => p
  else ""

/-- `dns.Server.handleACMETXTChallenge`: tries every proper dot-suffix of
the lowered query name as a zone, collects the provider records whose name
matches the query, and appends one TXT answer per collected record (TTL
from the record). -/
def handleACMETXT (acme : ProviderState) (qname : String) (msg : DNSMsg) : DNSMsg :=
  let zoneName := goToLower (goTrimSfx qname ".")
  let parts := goSplit '.' zoneName
  if parts.length < 2 then msg
  else
    let records := ((List.range parts.length).drop 1).foldl
      (fun acc i =>
        let testZone := String.intercalate "." (parts.drop i) ++ "."
        let recs := GetRecords acme testZone
        if 0 < recs.length then
          acc ++ recs.filter (fun rec =>
            goToLower (goTrimSfx rec.rname ".") == zoneName ||
              (rec.rname ++ "." ++ goTrimSfx testZone ".") == zoneName)
        else acc) []
    { msg with answers := msg.answers ++
        records.map (fun rec => DNSAnswer.txt qname rec.rttl.toNat rec.rdata) }

/-- One iteration of `handleDNSRequest`'s question loop: skip foreign
names, divert ACME TXT challenges, record a DNS interaction when a hook id
was extracted, then answer by query type (TTL 60 on every record).  The
generated interaction id, the client IP and the clock reading are
oracles attached to the question. -/
def handleDNSQuestion (s : DNSServer) (acme : ProviderState)
    (genId srcIP : String) (now : Int) (acc : DNSMsg × MemoryManager)
    (q : Question) : DNSMsg × MemoryManager :=
  let msg := acc.1
  let st := acc.2
  let isAcme :=
    (match q.qtype with | QType.txt => true | _ => false) &&
      goHasPfx "_acme-challenge." (goToLower q.name)
  if !(isOurDomain s.domain q.name) && !isAcme then acc
  else if isAcme then (handleACMETXT acme q.name msg, st)
  else
    let hookID := dnsExtractHookID s.domain q.name
    let st' :=
      if hookID ≠ "" then
        AddInteraction st hookID
          (DNSInteraction genId srcIP q.name (typeToString q.qtype) now)
      else st
    let msg' :=
      match q.qtype with
      | QType.a =>
        { msg with answers := msg.answers ++ [DNSAnswer.a q.name 60 s.serverIP] }
      | QType.aaaa => msg
      | QType.txt =>
        { msg with answers :=
            msg.answers ++ [DNSAnswer.txt q.name 60 "hookd interaction server"] }
      | QType.ns =>
        { msg with answers := msg.answers ++ [DNSAnswer.ns q.name 60 (s.domain ++ ".")] }
      | QType.mx =>
        { msg with answers :=
            msg.answers ++ [DNSAnswer.mx q.name 60 10 (s.domain ++ ".")] }
      | QType.other _ => msg
    (msg', st')

/-- `dns.Server.handleDNSRequest`: `SetReply` starts from an empty
authoritative answer, then the question loop runs; each question carries
its oracle triple (generated id, source IP, clock reading). -/
def handleDNSRequest (s : DNSServer) (acme : ProviderState) (st : MemoryManager)
    (qs : List (Question × String × String × Int)) : DNSMsg × MemoryManager :=
  qs.foldl
    (fun acc qq => handleDNSQuestion s acme qq.2.1 qq.2.2.1 qq.2.2.2 acc qq.1)
    ({ authoritative := true, answers := [] }, st)

/-- **C7.** For every DNS A-query whose name is the base domain or lies
under it (the handler's `isOurDomain` test), the reply holds exactly one A
record for the query name carrying the server's auto-detected outbound
IPv4 with TTL 60, and the reply is authoritative. -/
theorem C7_dns_A_answer (s : DNSServer) (acme : ProviderState) (st : MemoryManager)
    (q : Question) (genId srcIP : String) (now : Int)
    (hq : q.qtype = QType.a)
    (hdom : isOurDomain s.domain q.name = true) :
    (handleDNSRequest s acme st [(q, genId, srcIP, now)]).1 =
      { authoritative := true, answers := [DNSAnswer.a q.name 60 s.serverIP] } := by
  simp only [handleDNSRequest, List.foldl_cons, List.foldl_nil, handleDNSQuestion, hq, hdom]
  simp

theorem C7_dns_A_answer_witness :
    (⟨"abc123.example.com.", QType.a⟩ : Question).qtype = QType.a ∧
    isOurDomain "example.com" "abc123.example.com." = true ∧
    (handleDNSRequest ⟨"example.com", "203.0.113.7"⟩ [] mgrW
        [(⟨"abc123.example.com.", QType.a⟩, "i7", "9.9.9.9", 7)]).1 =
      { authoritative := true,
        answers := [DNSAnswer.a "abc123.example.com." 60 "203.0.113.7"] } :=
  ⟨rfl, by decide,
   C7_dns_A_answer ⟨"example.com", "203.0.113.7"⟩ [] mgrW
     ⟨"abc123.example.com.", QType.a⟩ "i7" "9.9.9.9" 7 rfl (by decide)⟩

/-- `CaptureHandler.extractHookID`: strips a port, requires the
`"." + domain` suffix on the Host header, then returns element 0 of the
dot-split subdomain part (the HTTP-side analogue of the DNS extraction). -/
def captureExtractHookID (domain hst : String) : String :=
  let h := cutColon hst
  let sfx := "." ++ domain
  if goHasSfx h sfx then
    match goSplit '.' (goTrimSfx h sfx) with
    | [] => ""
    | p :: _ => p
  else ""

/-- The head of a split is everything before the first separator. -/
theorem splitCharList_head (c : Char) (l : List Char) :
    ∃ t, splitCharList c l = (l.takeWhile (fun x => x != c)) :: t := by
  induction l with
  | nil => exact ⟨[], rfl⟩
  | cons x xs ih =>
    obtain ⟨t, ht⟩ := ih
    by_cases hx : x = c
    · refine ⟨xs.takeWhile (fun y => y != c) :: t, ?_⟩
      simp [splitCharList, ht, List.takeWhile, hx]
    · refine ⟨t, ?_⟩
      simp only [splitCharList, ht, List.takeWhile, if_neg hx]
      rw [show (x != c) = true from by simp [hx]]

/-- The DNS hook-id extraction returns the LEFTMOST label of the subdomain
part: the characters before the first dot. -/
theorem dnsExtractHookID_eq (domain qname : String)
    (h : goHasSfx (goTrimSfx qname ".") ("." ++ domain) = true) :
    dnsExtractHookID domain qname =
      String.mk (((goTrimSfx (goTrimSfx qname ".") ("." ++ domain)).data).takeWhile
        (fun ch => ch != '.')) := by
  obtain ⟨t, ht⟩ :=
    splitCharList_head '.' (goTrimSfx (goTrimSfx qname ".") ("." ++ domain)).data
  simp [dnsExtractHookID, goSplit, h, ht]

/-- The HTTP capture hook-id extraction likewise returns the LEFTMOST label
of the Host subdomain part. -/
theorem captureExtractHookID_eq (domain hst : String)
    (h : goHasSfx (cutColon hst) ("." ++ domain) = true) :
    captureExtractHookID domain hst =
      String.mk (((goTrimSfx (cutColon hst) ("." ++ domain)).data).takeWhile
        (fun ch => ch != '.')) := by
  obtain ⟨t, ht⟩ :=
    splitCharList_head '.' (goTrimSfx (cutColon hst) ("." ++ domain)).data
  simp [captureExtractHookID, goSplit, h, ht]

/-- A (case-exact) `"." + domain` suffix of the dot-trimmed query name
makes `isOurDomain` accept. -/
theorem isOurDomain_of_sfx {domain qname : String}
    (h : goHasSfx (goTrimSfx qname ".") ("." ++ domain) = true) :
    isOurDomain domain qname = true := by
  have hsuf : ("." ++ domain).data <:+ (goTrimSfx qname ".").data := by
    rw [← List.isSuffixOf_iff_suffix]; exact h
  have hmap := hsuf.map Char.toLower
  have hdot : ("." ++ domain).data.map Char.toLower =
      '.' :: domain.data.map Char.toLower := by
    have hd : ("." ++ domain).data = '.' :: domain.data := rfl
    rw [hd, List.map_cons]
    have : '.'.toLower = '.' := by decide
    rw [this]
  rw [hdot] at hmap
  have hsfx2 : goHasSfx (goToLower (goTrimSfx qname "."))
      ("." ++ goToLower domain) = true := by
    show (("." ++ goToLower domain).data).isSuffixOf
        ((goToLower (goTrimSfx qname ".")).data) = true
    rw [List.isSuffixOf_iff_suffix]
    exact hmap
  show (goToLower (goTrimSfx qname ".") == goToLower domain ||
      goHasSfx (goToLower (goTrimSfx qname ".")) ("." ++ goToLower domain)) = true
  rw [hsfx2, Bool.or_true]

/-- **C3 (counterexample).** The claim says the recorded hook id is the label
immediately to the left of the base domain: for `sub.abc123.example.com` it
would be `abc123`.  The extraction actually returns the LEFTMOST label
`sub` (DNS and HTTP alike), so on a store holding only the hook `abc123`
the query records nothing at all: the store is unchanged and `abc123`'s
interaction list stays empty. -/
theorem C3_hookid_counterexample :
    dnsExtractHookID "example.com" "sub.abc123.example.com." = "sub" ∧
    "sub" ≠ "abc123" ∧
    captureExtractHookID "example.com" "sub.abc123.example.com" = "sub" ∧
    (handleDNSRequest ⟨"example.com", "203.0.113.7"⟩ [] mgrW
        [(⟨"sub.abc123.example.com.", QType.a⟩, "i9", "9.9.9.9", 7)]).2 = mgrW ∧
    alistGet "abc123" mgrW.interactions = some [] := by decide

/-- **C3 (amended).** For a query name strictly under the base domain
(case-exact suffix, dot-trimmed) that is not an ACME challenge name, the
DNS interaction `(qname, qtype)` is recorded — for EVERY query type — under
the LEFTMOST label of the subdomain part (the characters before its first
dot), not under the label adjacent to the base domain; the analogous
leftmost-label extraction applies to the Host header on the HTTP capture
path. -/
theorem C3_hookid_amended (s : DNSServer) (acme : ProviderState) (st : MemoryManager)
    (q : Question) (genId srcIP : String) (now : Int) (hostHdr : String)
    (hsfx : goHasSfx (goTrimSfx q.name ".") ("." ++ s.domain) = true)
    (hacme : goHasPfx "_acme-challenge." (goToLower q.name) = false)
    (hid : dnsExtractHookID s.domain q.name ≠ "")
    (hsfx2 : goHasSfx (cutColon hostHdr) ("." ++ s.domain) = true) :
    dnsExtractHookID s.domain q.name =
      String.mk (((goTrimSfx (goTrimSfx q.name ".") ("." ++ s.domain)).data).takeWhile
        (fun ch => ch != '.')) ∧
    (handleDNSRequest s acme st [(q, genId, srcIP, now)]).2 =
      AddInteraction st (dnsExtractHookID s.domain q.name)
        (DNSInteraction genId srcIP q.name (typeToString q.qtype) now) ∧
    captureExtractHookID s.domain hostHdr =
      String.mk (((goTrimSfx (cutColon hostHdr) ("." ++ s.domain)).data).takeWhile
        (fun ch => ch != '.')) := by
  refine ⟨dnsExtractHookID_eq _ _ hsfx, ?_, captureExtractHookID_eq _ _ hsfx2⟩
  have hdom := isOurDomain_of_sfx hsfx
  simp only [handleDNSRequest, List.foldl_cons, List.foldl_nil, handleDNSQuestion,
    hdom, hacme, Bool.and_false]
  simp [hid]

theorem C3_hookid_amended_witness :
    (goHasSfx (goTrimSfx "sub.abc123.example.com." ".") ("." ++ "example.com") = true ∧
     goHasPfx "_acme-challenge." (goToLower "sub.abc123.example.com.") = false ∧
     dnsExtractHookID "example.com" "sub.abc123.example.com." ≠ "" ∧
     goHasSfx (cutColon "sub.abc123.example.com:8080") ("." ++ "example.com") = true) ∧
    (dnsExtractHookID "example.com" "sub.abc123.example.com." =
      String.mk (((goTrimSfx (goTrimSfx "sub.abc123.example.com." ".")
        ("." ++ "example.com")).data).takeWhile (fun ch => ch != '.')) ∧
    (handleDNSRequest ⟨"example.com", "203.0.113.7"⟩ [] mgrW
        [(⟨"sub.abc123.example.com.", QType.txt⟩, "i3", "9.9.9.9", 7)]).2 =
      AddInteraction mgrW (dnsExtractHookID "example.com" "sub.abc123.example.com.")
        (DNSInteraction "i3" "9.9.9.9" "sub.abc123.example.com."
          (typeToString QType.txt) 7) ∧
    captureExtractHookID "example.com" "sub.abc123.example.com:8080" =
      String.mk (((goTrimSfx (cutColon "sub.abc123.example.com:8080")
        ("." ++ "example.com")).data).takeWhile (fun ch => ch != '.'))) :=
  ⟨⟨by decide, by decide, by decide, by decide⟩,
   C3_hookid_amended ⟨"example.com", "203.0.113.7"⟩ [] mgrW
     ⟨"sub.abc123.example.com.", QType.txt⟩ "i3" "9.9.9.9" 7
     "sub.abc123.example.com:8080" (by decide) (by decide) (by decide) (by decide)⟩

/-! ## HTTP server embedding (`http.Server`, `http.APIHandler`,
`http.CaptureHandler`, `http.AuthMiddleware`) -/

/-- An HTTP request as the handlers read it.  Go's multi-valued header map
is modelled single-valued, matching the capture handler's `v[0]` reads and
`Header.Get`. -/
structure Request where
  method : String
  host : String
  path : String
  headers : List (String × String)
  body : String
  remoteAddr : String
deriving DecidableEq, Repr

/-- `r.Header.Get(k)`: the value under the key, or the empty string. -/
def headerGet (hs : List (String × String)) (k : String) : String :=
  (alistGet k hs).getD ""

/-- The JSON payload shapes the handlers pass to `respondJSON`. -/
inductive Payload
  | errMsg (msg : String)
  | hookPayload (h : Hook)
  | hooksPayload (hs : List Hook)
  | pollPayload (is : List Interaction)
  | batchPayload (results : List (String × Option (List Interaction)))
  | metricsPayload (stats : Stats) (ev : EvictionsBlock)
deriving DecidableEq, Repr

/-- What the server writes back: a bare status (`w.WriteHeader`), a JSON
body (`respondJSON`), or `ServeMux`'s implicit redirect. -/
inductive HResponse
  | empty (status : Nat)
  | json (status : Nat) (body : Payload)
  | redirect (status : Nat) (location : String)
deriving DecidableEq, Repr

/-- `http.AuthMiddleware` (the `X-API-Key` variant wired in
`Server.Start`): an empty or mismatching key is answered 401 with the JSON
error body, otherwise the wrapped handler runs. -/
def authMW (token : String)
    (next : Request → MemoryManager → HResponse × MemoryManager)
    (r : Request) (st : MemoryManager) : HResponse × MemoryManager :=
  let apiKey := headerGet r.headers "X-API-Key"
  if apiKey = "" then (.json 401 (.errMsg "Invalid or missing API key"), st)
  else if apiKey ≠ token then (.json 401 (.errMsg "Invalid or missing API key"), st)
  else next r st

/-- `APIHandler.HandleRegister`: POST only; the decoded `count` field of the
body is an oracle (`none` models a decode failure, which Go maps to
count 1); a missing body means count 0; anything below 1 becomes 1.  One
hook returns the hook object, several return a `hooks` list.  Generated
ids come from `idGen`. -/
def handleRegister (domain : String) (idGen : Nat → String) (now : Int)
    (decodedCount : Option Int) (r : Request) (st : MemoryManager) :
    HResponse × MemoryManager :=
  if r.method ≠ "POST" then (.json 405 (.errMsg "Method not allowed"), st)
  else
    let count0 : Int :=
      if r.body ≠ "" then (match decodedCount with | none => 1 | some c => c) else 0
    let count := if count0 < 1 then 1 else count0
    if count = 1 then
      let res := CreateHook st (idGen 0) domain now
      (.json 200 (.hookPayload res.2), res.1)
    else
      let res := (List.range count.toNat).foldl
        (fun acc i =>
          let r := CreateHook acc.1 (idGen i) domain now
          (r.1, acc.2 ++ [r.2]))
        (st, [])
      (.json 200 (.hooksPayload res.2), res.1)

/-- `APIHandler.HandlePoll`: GET only; the path must split into exactly
`poll/<id>`; unknown hooks get 404, known hooks are polled
(read-and-clear). -/
def handlePoll (r : Request) (st : MemoryManager) : HResponse × MemoryManager :=
  if r.method ≠ "GET" then (.json 405 (.errMsg "Method not allowed"), st)
  else
    let parts := goSplit '/' (trimSlash r.path)
    if parts.length ≠ 2 then (.json 400 (.errMsg "Invalid path format"), st)
    else
      let hookID := parts.getD 1 ""
      match GetHook st hookID with
      | none => (.json 404 (.errMsg "Hook not found"), st)
      | some _ =>
        let pr := PollInteractions st hookID
        (.json 200 (.pollPayload pr.1), pr.2)

/-- Modelled from the spec: `poll_batch(ids)` polls each id in order with
single-poll read-and-clear semantics, mapping an unknown hook to an error
marker (`none` stands for the `Hook not found` entry).  The implementation
(`storage.Manager.PollInteractionsBatch`) is not part of the published
sources. -/
def PollInteractionsBatch (st : MemoryManager) (ids : List String) :
    List (String × Option (List Interaction)) × MemoryManager :=
  ids.foldl
    (fun acc id =>
      match GetHook acc.2 id with
      | none => (acc.1 ++ [(id, none)], acc.2)
      | some _ =>
        let pr := PollInteractions acc.2 id
        (acc.1 ++ [(id, some pr.1)], pr.2))
    ([], st)

/-- `APIHandler.HandlePollBatch`: POST only; the decoded body is an oracle
(`none` models a decode failure → 400); an empty id list is 400; otherwise
the batch poll result is returned. -/
def handlePollBatch (decodedIds : Option (List String)) (r : Request)
    (st : MemoryManager) : HResponse × MemoryManager :=
  if r.method ≠ "POST" then (.json 405 (.errMsg "Method not allowed"), st)
  else
    match decodedIds with
    | none => (.json 400 (.errMsg "Invalid request body"), st)
    | some ids =>
      if ids.length = 0 then (.json 400 (.errMsg "hook_ids cannot be empty"), st)
      else
        let res := PollInteractionsBatch st ids
        (.json 200 (.batchPayload res.1), res.2)

/-- `APIHandler.HandleMetrics`: GET only; serialises the storage stats and
the evictions block. -/
def handleMetrics (met : Metrics) (r : Request) (st : MemoryManager) :
    HResponse × MemoryManager :=
  if r.method ≠ "GET" then (.json 405 (.errMsg "Method not allowed"), st)
  else (.json 200 (.metricsPayload (StatsOf st) (evictionsBlock met)), st)

/-- `CaptureHandler.ServeHTTP`: extracts the hook id from the Host header;
an empty id is answered 200 with nothing stored; otherwise the body is read
through a 10 MiB limit reader and an HTTP interaction is stored under the
id (a no-op for an unregistered id), answering 200. -/
def captureServe (domain genId : String) (now : Int) (r : Request)
    (st : MemoryManager) : HResponse × MemoryManager :=
  let hookID := captureExtractHookID domain r.host
  if hookID = "" then (.empty 200, st)
  else
    let body := String.mk (r.body.data.take (10 * 1024 * 1024))
    let sourceIP := httpExtractIP r.remoteAddr
    let i := HTTPInteraction genId sourceIP r.method r.path r.headers body now
    (.empty 200, AddInteraction st hookID i)

/-- The mux built in `Server.Start`: exact `/register` and `/metrics`,
subtree `/poll/` (both API routes behind `AuthMiddleware`, `/metrics`
open), and the capture handler at `/`.  `/poll` itself is registered
nowhere, so Go's `ServeMux` answers it with its implicit 301 redirect to
the subtree pattern `/poll/`. -/
def serverHandle (token domain : String) (idGen : Nat → String) (now : Int)
    (met : Metrics) (decodedCount : Option Int) (r : Request)
    (st : MemoryManager) : HResponse × MemoryManager :=
  if r.path = "/register" then
    authMW token (handleRegister domain idGen now decodedCount) r st
  else if r.path = "/poll" then (.redirect 301 "/poll/", st)
  else if goHasPfx "/poll/" r.path then authMW token handlePoll r st
  else if r.path = "/metrics" then handleMetrics met r st
  else captureServe domain (idGen 0) now r st

/-- A split with no separator present returns the singleton list. -/
theorem splitCharList_nosep (c : Char) (l : List Char)
    (h : l.all (fun x => x != c) = true) : splitCharList c l = [l] := by
  induction l with
  | nil => rfl
  | cons x xs ih =>
    rw [List.all_cons, Bool.and_eq_true] at h
    have hx : ¬x = c := by simpa using h.1
    simp [splitCharList, ih h.2, hx]

/-- A string is a Go-prefix of itself followed by anything. -/
theorem goHasPfx_append (p s : String) : goHasPfx p (p ++ s) = true := by
  show (p.data.isPrefixOf ((p ++ s).data)) = true
  have hd : (p ++ s).data = p.data ++ s.data := rfl
  rw [hd, List.isPrefixOf_iff_prefix]
  exact List.prefix_append _ _

/-- A path with the `/poll/` prefix is not the `/register` pattern. -/
theorem pollPfx_ne_register {p : String} (h : goHasPfx "/poll/" p = true) :
    p ≠ "/register" := by
  intro he; rw [he] at h; exact absurd h (by decide)

/-- A path with the `/poll/` prefix is not the bare `/poll` path. -/
theorem pollPfx_ne_poll {p : String} (h : goHasPfx "/poll/" p = true) :
    p ≠ "/poll" := by
  intro he; rw [he] at h; exact absurd h (by decide)

/-- `strings.Trim("/poll/<id>", "/")` drops exactly the outer slashes when
the id is nonempty and slash-free. -/
theorem trimSlash_pollPath (id : String) (hne : id ≠ "")
    (hs : id.data.all (fun c => c != '/') = true) :
    trimSlash ("/poll/" ++ id) = String.mk ('p' :: 'o' :: 'l' :: 'l' :: '/' ::id.data) := by
  unfold trimSlash
  have hd : ("/poll/" ++ id).data = '/' :: 'p' :: 'o' :: 'l' :: 'l' :: '/' ::id.data := rfl
  rw [hd]
  have hfront : ('/' :: 'p' :: 'o' :: 'l' :: 'l' :: '/' ::id.data).dropWhile (· = '/') =
      'p' :: 'o' :: 'l' :: 'l' :: '/' ::id.data := by
    simp [List.dropWhile_cons]
  rw [hfront]
  have hrevne : id.data ≠ [] := by
    intro hnil
    exact hne (show id = "" from by
      have : id = String.mk id.data := rfl
      rw [this, hnil])
  obtain ⟨c, rest, hrev⟩ : ∃ c rest, id.data.reverse = c :: rest := by
    cases hr : id.data.reverse with
    | nil => exact absurd (List.reverse_eq_nil_iff.mp hr) hrevne
    | cons c rest => exact ⟨c, rest, rfl⟩
  have hcmem : c ∈ id.data := by
    have : c ∈ id.data.reverse := by rw [hrev]; exact List.mem_cons_self _ _
    exact List.mem_reverse.mp this
  have hcne : ¬c = '/' := by
    have := List.all_eq_true.mp hs c hcmem
    simpa using this
  have hback : ('p' :: 'o' :: 'l' :: 'l' :: '/' ::id.data).reverse.dropWhile (· = '/') =
      ('p' :: 'o' :: 'l' :: 'l' :: '/' ::id.data).reverse := by
    have hr2 : ('p' :: 'o' :: 'l' :: 'l' :: '/' ::id.data).reverse =
        c :: (rest ++ ['/', 'l', 'l', 'o', 'p']) := by
      simp [List.reverse_cons, hrev]
    rw [hr2, List.dropWhile_cons, if_neg (by simpa using hcne)]
  rw [hback, List.reverse_reverse]

/-- Splitting `poll/<id>` on `/` yields the two fields. -/
theorem goSplit_pollPath (id : String)
    (hs : id.data.all (fun c => c != '/') = true) :
    goSplit '/' (String.mk ('p' :: 'o' :: 'l' :: 'l' :: '/' ::id.data)) = ["poll", id] := by
  have hnosep := splitCharList_nosep '/' id.data hs
  show (splitCharList '/' ('p' :: 'o' :: 'l' :: 'l' :: '/' ::id.data)).map String.mk = _
  simp [splitCharList, hnosep]

/-- `AddInteraction` never touches the hooks map. -/
theorem AddInteraction_hooks (m : MemoryManager) (h : String) (i : Interaction) :
    (AddInteraction m h i).hooks = m.hooks := by
  unfold AddInteraction
  cases alistGet h m.hooks <;> rfl

/-- **C4 (counterexample).** The claim lists `/poll` among the auth-gated
API routes, asserting a 401 on a missing key.  But no middleware ever sees
a `/poll` request: the route is registered nowhere, and the mux answers it
— here with no `X-API-Key` header at all — with the implicit 301 redirect
to `/poll/`, not with a 401. -/
theorem C4_auth_counterexample :
    headerGet ([] : List (String × String)) "X-API-Key" = "" ∧
    serverHandle "tok" "example.com" (fun _ => "i0") 0 Metrics.init none
        ⟨"POST", "hookd.example.com", "/poll", [], "", "1.2.3.4:5"⟩ mgrW =
      (HResponse.redirect 301 "/poll/", mgrW) ∧
    (HResponse.redirect 301 "/poll/", mgrW) ≠
      ((HResponse.json 401 (Payload.errMsg "Invalid or missing API key"),
        mgrW) : HResponse × MemoryManager) := by
  decide

/-- **C4 (amended).** With a non-empty configured token (the server
generates a random one when the config is empty): on the authenticated
routes — `/register` and the `/poll/` subtree, exactly the mux entries
wrapped in `AuthMiddleware`; `/poll` itself is unregistered and redirected
without consulting the middleware — a missing or mismatching `X-API-Key`
header is answered 401 with the JSON body
`error: Invalid or missing API key` and the store untouched, while a
matching header hands the request to the wrapped handler. -/
theorem C4_auth_middleware (token domain : String) (idGen : Nat → String)
    (now : Int) (met : Metrics) (decodedCount : Option Int)
    (r : Request) (st : MemoryManager) (htok : token ≠ "") :
    (headerGet r.headers "X-API-Key" ≠ token →
      authMW token (handleRegister domain idGen now decodedCount) r st =
        (.json 401 (.errMsg "Invalid or missing API key"), st) ∧
      authMW token handlePoll r st =
        (.json 401 (.errMsg "Invalid or missing API key"), st)) ∧
    (headerGet r.headers "X-API-Key" = token →
      authMW token (handleRegister domain idGen now decodedCount) r st =
        handleRegister domain idGen now decodedCount r st ∧
      authMW token handlePoll r st = handlePoll r st) ∧
    (r.path = "/register" →
      serverHandle token domain idGen now met decodedCount r st =
        authMW token (handleRegister domain idGen now decodedCount) r st) ∧
    (goHasPfx "/poll/" r.path = true →
      serverHandle token domain idGen now met decodedCount r st =
        authMW token handlePoll r st) := by
  refine ⟨?_, ?_, ?_, ?_⟩
  · intro hne
    by_cases hk : headerGet r.headers "X-API-Key" = ""
    · constructor <;> simp [authMW, hk]
    · constructor <;> simp [authMW, hk, hne]
  · intro heq
    constructor <;> simp [authMW, heq, htok]
  · intro hp
    simp [serverHandle, hp]
  · intro hp
    have h1 : r.path ≠ "/register" := pollPfx_ne_register hp
    have h2 : r.path ≠ "/poll" := pollPfx_ne_poll hp
    simp [serverHandle, h1, h2, hp]

theorem C4_auth_middleware_witness :
    ("tok" : String) ≠ "" ∧
    ((headerGet [("X-API-Key", "bad")] "X-API-Key" ≠ "tok" →
      authMW "tok" (handleRegister "example.com" (fun _ => "id0") 0 none)
          ⟨"GET", "example.com", "/poll/abc123", [("X-API-Key", "bad")], "", "9.9.9.9:1"⟩
          mgrW =
        (.json 401 (.errMsg "Invalid or missing API key"), mgrW) ∧
      authMW "tok" handlePoll
          ⟨"GET", "example.com", "/poll/abc123", [("X-API-Key", "bad")], "", "9.9.9.9:1"⟩
          mgrW =
        (.json 401 (.errMsg "Invalid or missing API key"), mgrW)) ∧
    (headerGet [("X-API-Key", "bad")] "X-API-Key" = "tok" →
      authMW "tok" (handleRegister "example.com" (fun _ => "id0") 0 none)
          ⟨"GET", "example.com", "/poll/abc123", [("X-API-Key", "bad")], "", "9.9.9.9:1"⟩
          mgrW =
        handleRegister "example.com" (fun _ => "id0") 0 none
          ⟨"GET", "example.com", "/poll/abc123", [("X-API-Key", "bad")], "", "9.9.9.9:1"⟩
          mgrW ∧
      authMW "tok" handlePoll
          ⟨"GET", "example.com", "/poll/abc123", [("X-API-Key", "bad")], "", "9.9.9.9:1"⟩
          mgrW =
        handlePoll
          ⟨"GET", "example.com", "/poll/abc123", [("X-API-Key", "bad")], "", "9.9.9.9:1"⟩
          mgrW) ∧
    ((⟨"GET", "example.com", "/poll/abc123", [("X-API-Key", "bad")], "", "9.9.9.9:1"⟩ :
        Request).path = "/register" →
      serverHandle "tok" "example.com" (fun _ => "id0") 0 Metrics.init none
          ⟨"GET", "example.com", "/poll/abc123", [("X-API-Key", "bad")], "", "9.9.9.9:1"⟩
          mgrW =
        authMW "tok" (handleRegister "example.com" (fun _ => "id0") 0 none)
          ⟨"GET", "example.com", "/poll/abc123", [("X-API-Key", "bad")], "", "9.9.9.9:1"⟩
          mgrW) ∧
    (goHasPfx "/poll/"
        (⟨"GET", "example.com", "/poll/abc123", [("X-API-Key", "bad")], "", "9.9.9.9:1"⟩ :
          Request).path = true →
      serverHandle "tok" "example.com" (fun _ => "id0") 0 Metrics.init none
          ⟨"GET", "example.com", "/poll/abc123", [("X-API-Key", "bad")], "", "9.9.9.9:1"⟩
          mgrW =
        authMW "tok" handlePoll
          ⟨"GET", "example.com", "/poll/abc123", [("X-API-Key", "bad")], "", "9.9.9.9:1"⟩
          mgrW)) :=
  ⟨by decide,
   C4_auth_middleware "tok" "example.com" (fun _ => "id0") 0 Metrics.init none
     ⟨"GET", "example.com", "/poll/abc123", [("X-API-Key", "bad")], "", "9.9.9.9:1"⟩
     mgrW (by decide)⟩

/-- **C5 (code bug).** `Server.Start` registers `/register`, `/poll/`,
`/metrics` and `/` but never `/poll` itself, so `APIHandler.HandlePollBatch`
is unreachable: any request for `/poll` — whatever the method, body or API
key — is answered by `ServeMux`'s implicit 301 redirect to the subtree
pattern `/poll/`, and the store is untouched.  The batch semantics the spec
describes (`handlePollBatch` above) is dead code. -/
theorem C5_poll_batch_unreachable (token domain : String) (idGen : Nat → String)
    (now : Int) (met : Metrics) (decodedCount : Option Int) (r : Request)
    (st : MemoryManager) (hp : r.path = "/poll") :
    serverHandle token domain idGen now met decodedCount r st =
      (HResponse.redirect 301 "/poll/", st) := by
  have h1 : r.path ≠ "/register" := by rw [hp]; decide
  simp [serverHandle, h1, hp]

theorem C5_poll_batch_unreachable_witness :
    (⟨"POST", "hookd.example.com", "/poll", [("X-API-Key", "tok")],
        "batch-body", "1.2.3.4:5"⟩ : Request).path = "/poll" ∧
    serverHandle "tok" "example.com" (fun _ => "i0") 0 Metrics.init none
        ⟨"POST", "hookd.example.com", "/poll", [("X-API-Key", "tok")],
          "batch-body", "1.2.3.4:5"⟩ mgrW =
      (HResponse.redirect 301 "/poll/", mgrW) :=
  ⟨rfl,
   C5_poll_batch_unreachable "tok" "example.com" (fun _ => "i0") 0 Metrics.init none
     ⟨"POST", "hookd.example.com", "/poll", [("X-API-Key", "tok")],
       "batch-body", "1.2.3.4:5"⟩ mgrW rfl⟩

/-- **C2 (counterexample).** The claim says capture works for EVERY path,
including API routes.  But the mux dispatches on the path first: a request
with Host `abc123.example.com` (hook `abc123` registered, extraction would
find it) and path `/register` reaches the authenticated register route, is
answered 401 for want of an API key, and nothing is stored. -/
theorem C2_capture_counterexample :
    GetHook mgrW "abc123" = some hkW ∧
    captureExtractHookID "example.com" "abc123.example.com" = "abc123" ∧
    serverHandle "tok" "example.com" (fun _ => "i1") 5 Metrics.init none
        ⟨"POST", "abc123.example.com", "/register", [], "hello", "9.9.9.9:1234"⟩
        mgrW =
      (HResponse.json 401 (Payload.errMsg "Invalid or missing API key"), mgrW) := by
  decide

/-- **C2 (amended).** For every method, path and body of at most 10 MiB: a
request whose Host header yields a registered hook id (its leftmost
subdomain label) is captured UNAUTHENTICATED — storing exactly one HTTP
interaction carrying the request's method, path, headers and body, which a
subsequent authenticated `GET /poll/<id>` returns and clears — PROVIDED the
path is not one of the mux's API patterns (`/register`, `/poll`,
`/poll/...`, `/metrics`); those paths are dispatched to the API routes and
never reach the capture handler. -/
theorem C2_capture_amended (token domain : String) (idGen : Nat → String)
    (now now2 : Int) (met met2 : Metrics) (dc dc2 : Option Int)
    (r : Request) (st : MemoryManager) (hk : Hook) (hookID : String)
    (hkid : captureExtractHookID domain r.host = hookID)
    (h1 : r.path ≠ "/register") (h2 : r.path ≠ "/poll")
    (h3 : goHasPfx "/poll/" r.path = false) (h4 : r.path ≠ "/metrics")
    (hhk : GetHook st hookID = some hk)
    (hid : hookID ≠ "")
    (hbody : r.body.data.length ≤ 10 * 1024 * 1024)
    (hpend : alistGet hookID st.interactions = some [])
    (htok : token ≠ "")
    (hslash : hookID.data.all (fun c => c != '/') = true) :
    serverHandle token domain idGen now met dc r st =
      (HResponse.empty 200, AddInteraction st hookID
        (HTTPInteraction (idGen 0) (httpExtractIP r.remoteAddr) r.method r.path
          r.headers r.body now)) ∧
    alistGet hookID
        (serverHandle token domain idGen now met dc r st).2.interactions =
      some [HTTPInteraction (idGen 0) (httpExtractIP r.remoteAddr) r.method r.path
        r.headers r.body now] ∧
    (serverHandle token domain idGen now2 met2 dc2
        ⟨"GET", "", "/poll/" ++ hookID, [("X-API-Key", token)], "", ""⟩
        (serverHandle token domain idGen now met dc r st).2).1 =
      HResponse.json 200 (Payload.pollPayload
        [HTTPInteraction (idGen 0) (httpExtractIP r.remoteAddr) r.method r.path
          r.headers r.body now]) ∧
    alistGet hookID
        (serverHandle token domain idGen now2 met2 dc2
          ⟨"GET", "", "/poll/" ++ hookID, [("X-API-Key", token)], "", ""⟩
          (serverHandle token domain idGen now met dc r st).2).2.interactions =
      some [] := by
  subst hkid
  have hcap : serverHandle token domain idGen now met dc r st =
      (HResponse.empty 200, AddInteraction st (captureExtractHookID domain r.host)
        (HTTPInteraction (idGen 0) (httpExtractIP r.remoteAddr) r.method r.path
          r.headers r.body now)) := by
    simp only [serverHandle, captureServe, if_neg h1, if_neg h2, if_neg h4, h3,
      Bool.false_eq_true, if_false, if_neg hid, List.take_of_length_le hbody]
  have hhk' : alistGet (captureExtractHookID domain r.host) st.hooks = some hk := hhk
  have hadd : alistGet (captureExtractHookID domain r.host)
      (AddInteraction st (captureExtractHookID domain r.host)
        (HTTPInteraction (idGen 0) (httpExtractIP r.remoteAddr) r.method r.path
          r.headers r.body now)).interactions =
      some [HTTPInteraction (idGen 0) (httpExtractIP r.remoteAddr) r.method r.path
        r.headers r.body now] := by
    simp only [AddInteraction, hhk', hpend]
    rw [alistGet_set_self]
    simp
  have hGetHook2 : GetHook (AddInteraction st (captureExtractHookID domain r.host)
      (HTTPInteraction (idGen 0) (httpExtractIP r.remoteAddr) r.method r.path
        r.headers r.body now)) (captureExtractHookID domain r.host) = some hk := by
    show alistGet (captureExtractHookID domain r.host)
      (AddInteraction st (captureExtractHookID domain r.host)
        (HTTPInteraction (idGen 0) (httpExtractIP r.remoteAddr) r.method r.path
          r.headers r.body now)).hooks = some hk
    rw [AddInteraction_hooks]
    exact hhk'
  have hPoll2 : PollInteractions (AddInteraction st (captureExtractHookID domain r.host)
      (HTTPInteraction (idGen 0) (httpExtractIP r.remoteAddr) r.method r.path
        r.headers r.body now)) (captureExtractHookID domain r.host) =
      ([HTTPInteraction (idGen 0) (httpExtractIP r.remoteAddr) r.method r.path
          r.headers r.body now],
       { AddInteraction st (captureExtractHookID domain r.host)
           (HTTPInteraction (idGen 0) (httpExtractIP r.remoteAddr) r.method r.path
             r.headers r.body now) with
         interactions := alistSet (captureExtractHookID domain r.host) []
           (AddInteraction st (captureExtractHookID domain r.host)
             (HTTPInteraction (idGen 0) (httpExtractIP r.remoteAddr) r.method r.path
               r.headers r.body now)).interactions }) := by
    simp only [PollInteractions, hadd]
  have hpfx := goHasPfx_append "/poll/" (captureExtractHookID domain r.host)
  have hn1 := pollPfx_ne_register hpfx
  have hn2 := pollPfx_ne_poll hpfx
  have hhp : handlePoll
      ⟨"GET", "", "/poll/" ++ captureExtractHookID domain r.host,
        [("X-API-Key", token)], "", ""⟩
      (AddInteraction st (captureExtractHookID domain r.host)
        (HTTPInteraction (idGen 0) (httpExtractIP r.remoteAddr) r.method r.path
          r.headers r.body now)) =
      (HResponse.json 200 (Payload.pollPayload
        [HTTPInteraction (idGen 0) (httpExtractIP r.remoteAddr) r.method r.path
          r.headers r.body now]),
       { AddInteraction st (captureExtractHookID domain r.host)
           (HTTPInteraction (idGen 0) (httpExtractIP r.remoteAddr) r.method r.path
             r.headers r.body now) with
         interactions := alistSet (captureExtractHookID domain r.host) []
           (AddInteraction st (captureExtractHookID domain r.host)
             (HTTPInteraction (idGen 0) (httpExtractIP r.remoteAddr) r.method r.path
               r.headers r.body now)).interactions }) := by
    simp only [handlePoll,
      trimSlash_pollPath (captureExtractHookID domain r.host) hid hslash,
      goSplit_pollPath (captureExtractHookID domain r.host) hslash]
    simp [hGetHook2, hPoll2]
  have hserve2 : serverHandle token domain idGen now2 met2 dc2
      ⟨"GET", "", "/poll/" ++ captureExtractHookID domain r.host,
        [("X-API-Key", token)], "", ""⟩
      (AddInteraction st (captureExtractHookID domain r.host)
        (HTTPInteraction (idGen 0) (httpExtractIP r.remoteAddr) r.method r.path
          r.headers r.body now)) =
      (HResponse.json 200 (Payload.pollPayload
        [HTTPInteraction (idGen 0) (httpExtractIP r.remoteAddr) r.method r.path
          r.headers r.body now]),
       { AddInteraction st (captureExtractHookID domain r.host)
           (HTTPInteraction (idGen 0) (httpExtractIP r.remoteAddr) r.method r.path
             r.headers r.body now) with
         interactions := alistSet (captureExtractHookID domain r.host) []
           (AddInteraction st (captureExtractHookID domain r.host)
             (HTTPInteraction (idGen 0) (httpExtractIP r.remoteAddr) r.method r.path
               r.headers r.body now)).interactions }) := by
    simp only [serverHandle, if_neg hn1, if_neg hn2, hpfx, if_pos trivial, if_true,
      authMW, headerGet, alistGet]
    simp [htok, hhp]
  refine ⟨hcap, ?_, ?_, ?_⟩
  · rw [hcap]; exact hadd
  · rw [hcap, hserve2]
  · rw [hcap, hserve2]
    exact alistGet_set_self _ _ _

/-- A capture request on a non-API path, for the C2 witness. -/
def reqC2a : Request :=
  ⟨"POST", "abc123.example.com", "/callback", [("User-Agent", "curl")],
    "payload", "9.9.9.9:1234"⟩

theorem C2_capture_amended_witness :
    (captureExtractHookID "example.com" reqC2a.host = "abc123" ∧
     reqC2a.path ≠ "/register" ∧ reqC2a.path ≠ "/poll" ∧
     goHasPfx "/poll/" reqC2a.path = false ∧ reqC2a.path ≠ "/metrics" ∧
     GetHook mgrW "abc123" = some hkW ∧ ("abc123" : String) ≠ "" ∧
     reqC2a.body.data.length ≤ 10 * 1024 * 1024 ∧
     alistGet "abc123" mgrW.interactions = some [] ∧ ("tok" : String) ≠ "" ∧
     ("abc123" : String).data.all (fun c => c != '/') = true) ∧
    (serverHandle "tok" "example.com" (fun _ => "i1") 5 Metrics.init none reqC2a mgrW =
      (HResponse.empty 200, AddInteraction mgrW "abc123"
        (HTTPInteraction "i1" (httpExtractIP reqC2a.remoteAddr) reqC2a.method
          reqC2a.path reqC2a.headers reqC2a.body 5)) ∧
     alistGet "abc123"
        (serverHandle "tok" "example.com" (fun _ => "i1") 5 Metrics.init none reqC2a
          mgrW).2.interactions =
      some [HTTPInteraction "i1" (httpExtractIP reqC2a.remoteAddr) reqC2a.method
        reqC2a.path reqC2a.headers reqC2a.body 5] ∧
     (serverHandle "tok" "example.com" (fun _ => "i1") 6 Metrics.init none
        ⟨"GET", "", "/poll/" ++ "abc123", [("X-API-Key", "tok")], "", ""⟩
        (serverHandle "tok" "example.com" (fun _ => "i1") 5 Metrics.init none reqC2a
          mgrW).2).1 =
      HResponse.json 200 (Payload.pollPayload
        [HTTPInteraction "i1" (httpExtractIP reqC2a.remoteAddr) reqC2a.method
          reqC2a.path reqC2a.headers reqC2a.body 5]) ∧
     alistGet "abc123"
        (serverHandle "tok" "example.com" (fun _ => "i1") 6 Metrics.init none
          ⟨"GET", "", "/poll/" ++ "abc123", [("X-API-Key", "tok")], "", ""⟩
          (serverHandle "tok" "example.com" (fun _ => "i1") 5 Metrics.init none reqC2a
            mgrW).2).2.interactions =
      some []) :=
  ⟨⟨by decide, by decide, by decide, by decide, by decide, by decide, by decide,
    by decide, by decide, by decide, by decide⟩,
   C2_capture_amended "tok" "example.com" (fun _ => "i1") 5 6 Metrics.init Metrics.init
     none none reqC2a mgrW hkW "abc123" (by decide) (by decide) (by decide) (by decide)
     (by decide) (by decide) (by decide) (by decide) (by decide) (by decide) (by decide)⟩
